import Mathlib

/-!
Verification of the ingestion and conditional-cache pipeline of the
property-listing server (server.js and its snapshot variants).

Modelling conventions, shared by all definitions below:
* Timestamps are modelled as epoch numbers (Nat).  The JS code stores ISO
  strings and derives epoch seconds with toEpoch; here a timestamp field
  holds the epoch value directly, and toEpoch(ts or now) becomes
  ts.getD now.
* A DynamoDB table is a function from the partition key to an optional
  item; an attribute that is absent or null is modelled as none.
* JS null-coalescing: the pattern (x ?? null) is the identity on the
  Option model; (x or null) additionally maps an empty string to none.
-/

namespace RetsSpec

/-- The single-quote character (code point 39), written via Char.ofNat. -/
def squote : Char := Char.ofNat 39

/-- Remove leading and trailing whitespace from a character list (the
behaviour of the JS String.trim). -/
def trimChars (l : List Char) : List Char :=
  ((l.dropWhile Char.isWhitespace).reverse.dropWhile Char.isWhitespace).reverse

/-- toNorm from server.js: String(s or empty).trim().toLowerCase(),
written character-wise. -/
def toNorm (s : Option String) : String :=
  String.mk ((trimChars (s.getD "").data).map Char.toLower)

/-- JS truthiness of an optional string: absent and empty are falsy. -/
def jsTruthyStr (o : Option String) : Bool :=
  match o with
  | none => false
  | some s => !s.isEmpty

/-- JS (x or null) on an optional string: an empty string becomes null. -/
def jsOrNullStr (o : Option String) : Option String :=
  match o with
  | some s => if s = "" then none else some s
  | none => none

/-- Outcome of upsertThinListing: ok (written) or ok-with-skipped. -/
inductive UpsertOutcome
  | written
  | skipped
deriving DecidableEq, Repr

/-- The incoming thin-listing item destructured at the top of
upsertThinListing (server.js lines 266-288). -/
structure ThinItem where
  ListingKey : String
  City : Option String
  CountyOrParish : Option String
  PostalCode : Option String
  StateOrProvince : Option String
  StandardStatus : Option String
  PropertyType : Option String
  PropertySubType : Option String
  ListPrice : Option Int
  BedroomsTotal : Option Int
  BathroomsTotalInteger : Option Int
  LivingArea : Option Int
  ModificationTimestamp : Option Nat
  PhotosChangeTimestamp : Option Nat
  PrimaryPhotoUrl : Option String
  UnparsedAddress : Option String
  InternetAddressDisplayYN : Option Bool
  SpecialListingConditions : Option (List String)
deriving DecidableEq, Repr

/-- A stored item of the Listings table.  Every attribute other than the
key is optional, since DynamoDB items are schemaless: records created by
the detail-cache write path carry none of the ingest attributes. -/
structure StoredListing where
  ListingKey : String
  City : Option String := none
  CityNorm : Option String := none
  CountyOrParish : Option String := none
  PostalCode : Option String := none
  StateOrProvince : Option String := none
  PropertyType : Option String := none
  PropertySubType : Option String := none
  StandardStatus : Option String := none
  ListPrice : Option Int := none
  BedroomsTotal : Option Int := none
  BathroomsTotalInteger : Option Int := none
  LivingArea : Option Int := none
  ModificationTimestamp : Option Nat := none
  PhotosChangeTimestamp : Option Nat := none
  PrimaryPhotoUrl : Option String := none
  CityStatus : Option String := none
  ModEpoch : Option Nat := none
  PriceSortDesc : Option Int := none
  LastSeenAt : Option Nat := none
  IsActive : Option Bool := none
  UnparsedAddress : Option String := none
  InternetAddressDisplayYN : Option Bool := none
  SpecialListingConditions : Option (List String) := none
  CdnPrimary400 : Option String := none
  Gallery400Count : Option Nat := none
  ImagesUpdatedAt : Option Nat := none
  Detail : Option String := none
  DetailCachedAt : Option Nat := none
deriving DecidableEq, Repr

/-- The Listings table: partition key ListingKey to optional item. -/
def Store : Type := String → Option StoredListing

/-- The empty item DynamoDB creates when an UpdateCommand targets an
absent key: only the key attribute is present. -/
def emptyStored (key : String) : StoredListing := { ListingKey := key }

/-- The ConditionExpression of upsertThinListing (server.js line 327):
attribute_not_exists(ModEpoch) OR ModEpoch less-equal the incoming value.
An absent item, and an item without a ModEpoch attribute, both satisfy
attribute_not_exists. -/
def upsertCondition (modEpoch : Nat) (prev : Option StoredListing) : Bool :=
  match prev with
  | none => true
  | some old =>
    match old.ModEpoch with
    | none => true
    | some m => m ≤ modEpoch

/-- The item produced by the SET clause of upsertThinListing applied over
a base item (the existing item, or the fresh key-only item DynamoDB
creates): every attribute of the update expression is overwritten, all
other attributes of the base are preserved (server.js lines 290-352). -/
def upsertRecord (now : Nat) (it : ThinItem) (base : StoredListing) :
    StoredListing :=
  let cityNorm := toNorm it.City
  { base with
    City := jsOrNullStr it.City
    CityNorm := some cityNorm
    CountyOrParish := it.CountyOrParish
    PostalCode := it.PostalCode
    StateOrProvince := it.StateOrProvince
    PropertyType := it.PropertyType
    PropertySubType := it.PropertySubType
    StandardStatus := it.StandardStatus
    ListPrice := it.ListPrice
    BedroomsTotal := it.BedroomsTotal
    BathroomsTotalInteger := it.BathroomsTotalInteger
    LivingArea := it.LivingArea
    ModificationTimestamp := it.ModificationTimestamp
    PhotosChangeTimestamp := it.PhotosChangeTimestamp
    PrimaryPhotoUrl := it.PrimaryPhotoUrl
    CityStatus := some (cityNorm ++ "#" ++ (it.StandardStatus.getD ""))
    ModEpoch := some (it.ModificationTimestamp.getD now)
    PriceSortDesc := it.ListPrice.map (fun p => -p)
    LastSeenAt := some now
    IsActive := some (it.StandardStatus = some "Active" : Bool)
    UnparsedAddress := it.UnparsedAddress
    InternetAddressDisplayYN := it.InternetAddressDisplayYN
    SpecialListingConditions := some (it.SpecialListingConditions.getD []) }

/-- upsertThinListing (server.js lines 266-362).  Performs the
conditional UpdateCommand; a ConditionalCheckFailedException is caught
and reported as a skipped success, leaving the table unchanged. -/
def upsertThinListing (now : Nat) (it : ThinItem) (db : Store) :
    Store × UpsertOutcome :=
  let prev := db it.ListingKey
  if upsertCondition (it.ModificationTimestamp.getD now) prev then
    (fun k =>
      if k = it.ListingKey then
        some (upsertRecord now it (prev.getD (emptyStored it.ListingKey)))
      else db k,
     UpsertOutcome.written)
  else
    (db, UpsertOutcome.skipped)

/-- The empty Listings table. -/
def emptyStore : Store := fun _ => none

/-- A concrete item R1 with ModEpoch 100, used by the testable properties
of the specification. -/
def sampleR1 : ThinItem where
  ListingKey := "L1"
  City := some "San Dimas"
  CountyOrParish := some "Los Angeles"
  PostalCode := some "91773"
  StateOrProvince := some "CA"
  StandardStatus := some "Active"
  PropertyType := some "Residential"
  PropertySubType := none
  ListPrice := some 500000
  BedroomsTotal := some 3
  BathroomsTotalInteger := some 2
  LivingArea := some 1400
  ModificationTimestamp := some 100
  PhotosChangeTimestamp := some 90
  PrimaryPhotoUrl := none
  UnparsedAddress := some "123 Main St"
  InternetAddressDisplayYN := some true
  SpecialListingConditions := some ["Standard"]

/-- A concrete item R2 for the same key with the older ModEpoch 90. -/
def sampleR2 : ThinItem :=
  { sampleR1 with
    StandardStatus := some "Pending"
    ListPrice := some 450000
    ModificationTimestamp := some 90 }

lemma upsert_skipped_iff (now : Nat) (it : ThinItem) (db : Store) :
    (upsertThinListing now it db).2 = UpsertOutcome.skipped ↔
      upsertCondition (it.ModificationTimestamp.getD now) (db it.ListingKey)
        = false := by
  unfold upsertThinListing
  by_cases h : upsertCondition (it.ModificationTimestamp.getD now)
      (db it.ListingKey) = true
  · simp [h]
  · simp [Bool.not_eq_true] at h
    simp [h]

lemma upsert_written_iff (now : Nat) (it : ThinItem) (db : Store) :
    (upsertThinListing now it db).2 = UpsertOutcome.written ↔
      upsertCondition (it.ModificationTimestamp.getD now) (db it.ListingKey)
        = true := by
  unfold upsertThinListing
  by_cases h : upsertCondition (it.ModificationTimestamp.getD now)
      (db it.ListingKey) = true
  · simp [h]
  · simp [Bool.not_eq_true] at h
    simp [h]

lemma upsert_skipped_unchanged (now : Nat) (it : ThinItem) (db : Store)
    (h : (upsertThinListing now it db).2 = UpsertOutcome.skipped) :
    ∀ k, (upsertThinListing now it db).1 k = db k := by
  rw [upsert_skipped_iff] at h
  intro k
  unfold upsertThinListing
  simp [h]

/-- C1: the conditional upsert accepts a write iff no record with the key
exists or the existing ModEpoch is at most the incoming ModEpoch; a
rejected write is reported as the skipped success outcome and leaves the
stored record unchanged; and concretely, upserting R1 (ModEpoch 100) then
R2 (ModEpoch 90) for the same key leaves the stored record equal to the
one written for R1. -/
theorem c1_conditional_upsert (now : Nat) (it : ThinItem) (db : Store)
    (hmod : ∀ old, db it.ListingKey = some old → old.ModEpoch.isSome) :
    ((upsertThinListing now it db).2 = UpsertOutcome.written ↔
      db it.ListingKey = none ∨
      ∃ old m, db it.ListingKey = some old ∧ old.ModEpoch = some m ∧
        m ≤ it.ModificationTimestamp.getD now) ∧
    ((upsertThinListing now it db).2 = UpsertOutcome.skipped →
      ∀ k, (upsertThinListing now it db).1 k = db k) ∧
    ((upsertThinListing 0 sampleR2
        (upsertThinListing 0 sampleR1 emptyStore).1).2
      = UpsertOutcome.skipped ∧
     (upsertThinListing 0 sampleR2
        (upsertThinListing 0 sampleR1 emptyStore).1).1 "L1"
      = (upsertThinListing 0 sampleR1 emptyStore).1 "L1") := by
  refine ⟨?_, upsert_skipped_unchanged now it db, by decide⟩
  rw [upsert_written_iff]
  cases hdb : db it.ListingKey with
  | none => simp [upsertCondition, hdb]
  | some old =>
    cases hm : old.ModEpoch with
    | none =>
      have := hmod old hdb
      rw [hm] at this
      simp at this
    | some m =>
      simp only [upsertCondition, hm, hdb, decide_eq_true_eq]
      constructor
      · intro h
        exact Or.inr ⟨old, m, rfl, hm, h⟩
      · rintro (h | ⟨old2, m2, heq, hm2, hle⟩)
        · exact absurd h (by simp)
        · injection heq with he
          subst he
          rw [hm] at hm2
          injection hm2 with hmm
          omega

/-- Closed witness for C1 at a concrete store and item: the store holds
the record written for R1 (ModEpoch 100), the incoming item is R2
(ModEpoch 90), and the write is rejected as skipped. -/
theorem c1_conditional_upsert_witness :
    (upsertThinListing 0 sampleR1 emptyStore).2 = UpsertOutcome.written := by
  have h := c1_conditional_upsert 0 sampleR1 emptyStore
    (by intro old hstore; simp [emptyStore] at hstore)
  exact h.1.mpr (Or.inl rfl)

lemma upsert_written_store (now : Nat) (it : ThinItem) (db : Store)
    (h : upsertCondition (it.ModificationTimestamp.getD now)
        (db it.ListingKey) = true) :
    (upsertThinListing now it db).1 = fun k =>
      if k = it.ListingKey then
        some (upsertRecord now it
          ((db it.ListingKey).getD (emptyStored it.ListingKey)))
      else db k := by
  unfold upsertThinListing
  simp [h]

/-- C2 counterexample: upserting the same record twice with an unchanged
ModEpoch yields written on BOTH calls, because the ConditionExpression
uses less-or-equal, so the equal-epoch rewrite is accepted; the claimed
second outcome, skipped, does not occur. -/
theorem c2_idempotent_counterexample :
    (upsertThinListing 0 sampleR1
        (upsertThinListing 0 sampleR1 emptyStore).1).2
      = UpsertOutcome.written ∧
    UpsertOutcome.written ≠ UpsertOutcome.skipped := by decide

/-- C2 amended: upserting the same record twice with an unchanged
ModEpoch (at the same clock reading) yields written on the first call
and written again on the second, and the store state after the second
upsert is identical, in every field, to the state after the first. -/
theorem c2_idempotent_upsert (now : Nat) (it : ThinItem) (db : Store)
    (h1 : (upsertThinListing now it db).2 = UpsertOutcome.written) :
    (upsertThinListing now it (upsertThinListing now it db).1).2
      = UpsertOutcome.written ∧
    (∀ k, (upsertThinListing now it (upsertThinListing now it db).1).1 k
      = (upsertThinListing now it db).1 k) := by
  rw [upsert_written_iff] at h1
  have hstore1 := upsert_written_store now it db h1
  have hdb1 : (upsertThinListing now it db).1 it.ListingKey
      = some (upsertRecord now it
          ((db it.ListingKey).getD (emptyStored it.ListingKey))) := by
    rw [hstore1]
    simp
  have hcond2 : upsertCondition (it.ModificationTimestamp.getD now)
      ((upsertThinListing now it db).1 it.ListingKey) = true := by
    rw [hdb1]
    simp [upsertCondition, upsertRecord]
  refine ⟨by rw [upsert_written_iff]; exact hcond2, ?_⟩
  have hstore2 := upsert_written_store now it
    (upsertThinListing now it db).1 hcond2
  intro k
  rw [hstore2]
  by_cases hk : k = it.ListingKey
  · subst hk
    rw [hdb1]
    simp only [Option.getD_some, if_pos rfl, if_true]
    rfl
  · simp [hk]

/-- Closed witness for C2 at a concrete item over the empty store. -/
theorem c2_idempotent_upsert_witness :
    (upsertThinListing 0 sampleR1
        (upsertThinListing 0 sampleR1 emptyStore).1).2
      = UpsertOutcome.written := by
  have h := c2_idempotent_upsert 0 sampleR1 emptyStore (by decide)
  exact h.1

/-- The detail-cache write of GET /webapi/property/by-id (server.js
lines 1223-1238): an UpdateCommand with NO ConditionExpression that sets
Detail and DetailCachedAt unconditionally and fills PrimaryPhotoUrl and
PhotosChangeTimestamp via if_not_exists.  The Detail snapshot object is
modelled as an opaque string. -/
def detailCacheWrite (now : Nat) (listingKey : String) (detailSnap : String)
    (primarySrc : Option String) (pct : Option Nat) (db : Store) : Store :=
  fun k =>
    if k = listingKey then
      let base := (db listingKey).getD (emptyStored listingKey)
      some { base with
        Detail := some detailSnap
        DetailCachedAt := some now
        PrimaryPhotoUrl :=
          match base.PrimaryPhotoUrl with
          | some p => some p
          | none => primarySrc
        PhotosChangeTimestamp :=
          match base.PhotosChangeTimestamp with
          | some p => some p
          | none => pct }
    else db k

/-- The PrimaryPhotoUrl backfill of GET /webapi/property/by-id
(server.js lines 1123-1130): SET PrimaryPhotoUrl =
if_not_exists(PrimaryPhotoUrl, value), with no ConditionExpression. -/
def backfillPrimaryPhoto (listingKey : String) (p : String) (db : Store) :
    Store :=
  fun k =>
    if k = listingKey then
      let base := (db listingKey).getD (emptyStored listingKey)
      some { base with
        PrimaryPhotoUrl :=
          match base.PrimaryPhotoUrl with
          | some q => some q
          | none => some p }
    else db k

/-- A concrete store holding one ingested record under key L1, with
ModEpoch 100 and a cached Detail snapshot. -/
def c3SampleStore : Store := fun k =>
  if k = "L1" then
    some { emptyStored "L1" with ModEpoch := some 100, Detail := some "old" }
  else none

/-- C3 counterexample: the detail-cache write path mutates an existing
cached record without going through the conditional upsert: it carries no
ModEpoch and checks no precondition, yet changes the stored record. -/
theorem c3_lifecycle_counterexample :
    (c3SampleStore "L1").isSome ∧
    detailCacheWrite 7 "L1" "new" none none c3SampleStore "L1"
      ≠ c3SampleStore "L1" := by decide

/-- C3 amended: no write path of the pipeline ever deletes a record, and
the two write paths outside the conditional upsert are limited: the
detail-cache write preserves every ingest attribute (including ModEpoch)
and only fills PrimaryPhotoUrl and PhotosChangeTimestamp when absent,
while the PrimaryPhotoUrl backfill is a no-op on a record whose
PrimaryPhotoUrl is already present.  However, Detail and DetailCachedAt
ARE mutated unconditionally, so not every mutation is guarded by the
ModEpoch precondition. -/
theorem c3_lifecycle_amended (now : Nat) (it : ThinItem) (db : Store)
    (lk snap : String) (primarySrc : Option String) (pct : Option Nat)
    (p : String) (k : String) :
    ((db k).isSome → ((upsertThinListing now it db).1 k).isSome) ∧
    ((db k).isSome → (detailCacheWrite now lk snap primarySrc pct db k).isSome) ∧
    ((db k).isSome → (backfillPrimaryPhoto lk p db k).isSome) ∧
    (∀ old, db lk = some old →
      ∃ r, detailCacheWrite now lk snap primarySrc pct db lk = some r ∧
        r.ModEpoch = old.ModEpoch ∧
        r.City = old.City ∧
        r.CityNorm = old.CityNorm ∧
        r.StandardStatus = old.StandardStatus ∧
        r.ListPrice = old.ListPrice ∧
        r.ModificationTimestamp = old.ModificationTimestamp ∧
        r.LastSeenAt = old.LastSeenAt ∧
        (old.PrimaryPhotoUrl.isSome → r.PrimaryPhotoUrl = old.PrimaryPhotoUrl) ∧
        (old.PhotosChangeTimestamp.isSome →
          r.PhotosChangeTimestamp = old.PhotosChangeTimestamp)) ∧
    (∀ old, db lk = some old → old.PrimaryPhotoUrl.isSome →
      ∀ k2, backfillPrimaryPhoto lk p db k2 = db k2) := by
  refine ⟨?_, ?_, ?_, ?_, ?_⟩
  · intro h
    unfold upsertThinListing
    by_cases hc : upsertCondition (it.ModificationTimestamp.getD now)
        (db it.ListingKey) = true
    · simp only [hc, if_true]
      by_cases hk : k = it.ListingKey
      · simp [hk]
      · simpa [hk] using h
    · simp only [Bool.not_eq_true] at hc
      simpa [hc] using h
  · intro h
    unfold detailCacheWrite
    by_cases hk : k = lk
    · simp [hk]
    · simpa [hk] using h
  · intro h
    unfold backfillPrimaryPhoto
    by_cases hk : k = lk
    · simp [hk]
    · simpa [hk] using h
  · intro old hold
    have hr : detailCacheWrite now lk snap primarySrc pct db lk
        = some { old with
            Detail := some snap
            DetailCachedAt := some now
            PrimaryPhotoUrl :=
              match old.PrimaryPhotoUrl with
              | some q => some q
              | none => primarySrc
            PhotosChangeTimestamp :=
              match old.PhotosChangeTimestamp with
              | some q => some q
              | none => pct } := by
      unfold detailCacheWrite
      simp [hold]
    refine ⟨_, hr, rfl, rfl, rfl, rfl, rfl, rfl, rfl, ?_, ?_⟩
    · intro hsome
      cases hpp : old.PrimaryPhotoUrl with
      | none => rw [hpp] at hsome; simp at hsome
      | some q => simp [hpp]
    · intro hsome
      cases hpc : old.PhotosChangeTimestamp with
      | none => rw [hpc] at hsome; simp at hsome
      | some q => simp [hpc]
  · intro old hold hsome k2
    unfold backfillPrimaryPhoto
    by_cases hk : k2 = lk
    · subst hk
      rw [hold]
      simp only [Option.getD_some, if_pos rfl]
      cases hpp : old.PrimaryPhotoUrl with
      | none => rw [hpp] at hsome; simp at hsome
      | some q =>
        simp only [hpp]
        rw [← hpp]
        simp only [if_true]
    · simp [hk]

/-- Closed witness for C3 at the concrete sample store. -/
theorem c3_lifecycle_amended_witness :
    (detailCacheWrite 7 "L1" "new" none none c3SampleStore "L1").isSome := by
  have h := c3_lifecycle_amended 7 sampleR1 c3SampleStore "L1" "new" none none
    "photo" "L1"
  exact h.2.1 (by decide)

/-- One character of the global regex replace of a single quote by two
single quotes. -/
def escChar (c : Char) : List Char :=
  if c = squote then [c, c] else [c]

/-- The character-list form of the replace. -/
def escList (l : List Char) : List Char := (l.map escChar).flatten

lemma escList_cons (c : Char) (t : List Char) :
    escList (c :: t) = escChar c ++ escList t := by
  simp [escList]

/-- esc from server.js (lines 637, 718, 1110, 1161, ...): replace every
single quote by two single quotes (the OData string-literal escape). -/
def esc (s : String) : String := String.mk (escList s.data)

/-- odString from the snapshot files part_001 line 54 and part_007
line 50: the identical replace of every single quote by two. -/
def odString (s : String) : String := String.mk (escList s.data)

/-- The test value spelled O, quote, B, r, i, e, n. -/
def obrien : String := String.mk [Char.ofNat 79, squote, Char.ofNat 66,
  Char.ofNat 114, Char.ofNat 105, Char.ofNat 101, Char.ofNat 110]

/-- The expected escape of obrien, with the quote doubled. -/
def obrienEscaped : String := String.mk [Char.ofNat 79, squote, squote,
  Char.ofNat 66, Char.ofNat 114, Char.ofNat 105, Char.ofNat 101,
  Char.ofNat 110]

lemma escList_no_quote (l : List Char) (h : squote ∉ l) : escList l = l := by
  induction l with
  | nil => rfl
  | cons c t ih =>
    have hc : ¬ c = squote := fun hc => h (hc ▸ List.mem_cons_self c t)
    have ht : squote ∉ t := fun hm => h (List.mem_cons_of_mem c hm)
    simp [escList, escChar, hc] at ih ⊢
    exact ih ht

lemma escList_count (l : List Char) :
    (escList l).count squote = 2 * l.count squote := by
  induction l with
  | nil => rfl
  | cons c t ih =>
    rw [escList_cons, List.count_append, ih, List.count_cons]
    by_cases hc : c = squote
    · subst hc
      simp [escChar, List.count_cons]
      omega
    · simp [escChar, hc, Ne.symm hc]

lemma escList_filter (l : List Char) :
    (escList l).filter (fun c => c != squote)
      = l.filter (fun c => c != squote) := by
  induction l with
  | nil => rfl
  | cons c t ih =>
    rw [escList_cons, List.filter_append, ih, List.filter_cons]
    by_cases hc : c = squote
    · subst hc
      simp [escChar]
    · simp [escChar, hc]

/-- C4: the filter-literal escape doubles every embedded single quote:
the value obrien is escaped to obrienEscaped (by both esc of server.js
and odString of the snapshot files), a value with no single quote passes
through unchanged, the number of quotes in the output is exactly twice
the number in the input, and all non-quote characters are preserved in
order. -/
theorem c4_quote_escaping :
    (esc obrien = obrienEscaped ∧ odString obrien = obrienEscaped) ∧
    (∀ s : String, squote ∉ s.data → esc s = s) ∧
    (∀ s : String, (esc s).data.count squote = 2 * s.data.count squote) ∧
    (∀ s : String, (esc s).data.filter (fun c => c != squote)
      = s.data.filter (fun c => c != squote)) := by
  refine ⟨⟨by decide, by decide⟩, ?_, ?_, ?_⟩
  · intro s hs
    cases s with
    | mk l =>
      show String.mk (escList l) = String.mk l
      rw [escList_no_quote l hs]
  · intro s
    exact escList_count s.data
  · intro s
    exact escList_filter s.data

/-- Closed witness for C4 on a quote-free value. -/
theorem c4_quote_escaping_witness :
    esc (String.mk [Char.ofNat 97, Char.ofNat 98])
      = String.mk [Char.ofNat 97, Char.ofNat 98] := by
  exact c4_quote_escaping.2.1 _ (by decide)

/-- One OData response page: the value array, the optional
at-odata.nextLink continuation, and the optional at-odata.count. -/
structure ODataPage (α : Type) where
  value : List α
  nextLink : Option String
  odataCount : Option Nat
deriving DecidableEq, Repr

/-- Character-wise lowering of a string (the JS toLowerCase used by the
case-insensitive regex test). -/
def lowerChars (s : String) : List Char := s.data.map Char.toLower

/-- The test of the regex caret-https?-colon-slash-slash with the i
flag (part_001 line 59): the link starts with http:// or https://,
case-insensitively. -/
def isAbsoluteUrl (l : String) : Bool :=
  "http://".data.isPrefixOf (lowerChars l)
    || "https://".data.isPrefixOf (lowerChars l)

/-- toAbsoluteNextLink (part_001 lines 57-63, part_007 lines 52-57):
a falsy link gives null, an absolute link is returned as-is, a
slash-relative link is prefixed with the host, any other relative link
is joined with exactly one slash. -/
def toAbsoluteNextLink (host : String) (link : Option String) :
    Option String :=
  match link with
  | none => none
  | some l =>
    if l = "" then none
    else if isAbsoluteUrl l then some l
    else if "/".data.isPrefixOf l.data then some (host ++ l)
    else some (host ++ "/" ++ l)

/-- Failure modes of the paged fetch: the greater-than-1,000,000 guard
throw, and non-termination (the JS while loop can spin forever on a
cursor cycle with empty pages; running out of fuel models that). -/
inductive PagedError
  | runaway
  | outOfFuel
deriving DecidableEq, Repr

/-- The while loop of fetchODataPaged (part_001 lines 87-98, part_007
lines 80-86): fetch the page, capture at-odata.count once, append the
page records, throw once the accumulated records exceed 1,000,000, and
follow the normalized continuation link until none remains. -/
def fetchPagesLoop {α : Type} (host : String) (up : String → ODataPage α) :
    Nat → String → List α → Option Nat → Except PagedError (List α × Nat)
  | 0, _, _, _ => Except.error PagedError.outOfFuel
  | fuel + 1, url, total, cnt =>
    let page := up url
    let cnt2 := match cnt with
      | none => page.odataCount
      | some c => some c
    let total2 := total ++ page.value
    if total2.length > 1000000 then Except.error PagedError.runaway
    else
      match toAbsoluteNextLink host page.nextLink with
      | none => Except.ok (total2, cnt2.getD total2.length)
      | some u => fetchPagesLoop host up fuel u total2 cnt2

/-- fetchODataPaged (part_001 lines 80-101): start at the resource URL
built from the host and query string, with an empty accumulator. -/
def fetchODataPaged {α : Type} (host : String) (up : String → ODataPage α)
    (fuel : Nat) (resource qs : String) : Except PagedError (List α × Nat) :=
  fetchPagesLoop host up fuel
    (host ++ "/trestle/odata/" ++ resource ++ "?" ++ qs) [] none

/-- An upstream serves a finite chain of pages from a URL: each page is
what the upstream returns for its URL, each page but the last carries a
continuation link resolving to the next URL, and the last page carries
none. -/
inductive ServesChain {α : Type} (host : String) (up : String → ODataPage α) :
    String → List (ODataPage α) → Prop
  | last (u : String) (p : ODataPage α) (h : up u = p)
      (hn : toAbsoluteNextLink host p.nextLink = none) :
      ServesChain host up u [p]
  | step (u v : String) (p : ODataPage α) (l : List (ODataPage α))
      (h : up u = p) (hn : toAbsoluteNextLink host p.nextLink = some v)
      (hc : ServesChain host up v l) :
      ServesChain host up u (p :: l)

lemma fetchPagesLoop_chain {α : Type} (host : String)
    (up : String → ODataPage α) (ps : List (ODataPage α)) (u : String)
    (hchain : ServesChain host up u ps) :
    ∀ (acc : List α) (cnt : Option Nat) (fuel : Nat),
      acc.length + ((ps.map (fun p => p.value.length)).sum) ≤ 1000000 →
      ps.length ≤ fuel →
      ∃ c, fetchPagesLoop host up fuel u acc cnt
        = Except.ok (acc ++ (ps.map (fun p => p.value)).flatten, c) := by
  induction hchain with
  | last u p hp hn =>
    intro acc cnt fuel hbound hfuel
    cases fuel with
    | zero => simp at hfuel
    | succ f =>
      have hlen : ¬ (acc ++ p.value).length > 1000000 := by
        simp only [List.length_append]
        simp [List.map, List.sum_cons] at hbound
        omega
      refine ⟨(match cnt with
        | none => p.odataCount
        | some c => some c).getD (acc ++ p.value).length, ?_⟩
      simp only [fetchPagesLoop, hp, if_neg hlen, hn]
      simp
  | step u v p l hp hn hc ih =>
    intro acc cnt fuel hbound hfuel
    cases fuel with
    | zero => simp at hfuel
    | succ f =>
      have hlen : ¬ (acc ++ p.value).length > 1000000 := by
        simp only [List.length_append]
        simp [List.map, List.sum_cons] at hbound
        omega
      have hbound2 : (acc ++ p.value).length
          + ((l.map (fun p => p.value.length)).sum) ≤ 1000000 := by
        simp only [List.length_append]
        simp [List.map, List.sum_cons] at hbound
        omega
      have hfuel2 : l.length ≤ f := by
        simp at hfuel
        omega
      obtain ⟨c, hrec⟩ := ih (acc ++ p.value)
        (match cnt with
          | none => p.odataCount
          | some c => some c) f hbound2 hfuel2
      refine ⟨c, ?_⟩
      simp only [fetchPagesLoop, hp, if_neg hlen, hn]
      rw [hrec]
      simp

/-- The configured upstream host of the concrete pagination example. -/
def c5host : String := "https://api-trestle.corelogic.com"

/-- Concrete page 1 (records 1,2) with a resource-relative link. -/
def c5page1 : ODataPage Nat :=
  ⟨[1, 2], some "/trestle/odata/Property?page2", some 6⟩

/-- Concrete page 2 (records 3,4) with an absolute link. -/
def c5page2 : ODataPage Nat :=
  ⟨[3, 4], some (c5host ++ "/trestle/odata/Property?page3"), none⟩

/-- Concrete page 3 (records 5,6) with no continuation link. -/
def c5page3 : ODataPage Nat := ⟨[5, 6], none, none⟩

/-- The synthetic upstream serving the three chained pages. -/
def c5up : String → ODataPage Nat := fun u =>
  if u = c5host ++ "/trestle/odata/Property?page1" then c5page1
  else if u = c5host ++ "/trestle/odata/Property?page2" then c5page2
  else if u = c5host ++ "/trestle/odata/Property?page3" then c5page3
  else ⟨[], none, none⟩

/-- C5: the paged fetch follows the continuation link of each page until
a page carries none, aggregating all page records in call order (for any
finite chain whose total stays within the guard); an absolute
continuation link is re-issued as-is while a resource-relative link is
normalized against the configured host (with or without a leading
slash); and the concrete synthetic upstream of 3 pages of 2 records
yields exactly those 6 records in order. -/
theorem c5_pagination_follows_chain (host : String) :
    (∀ {α : Type} (up : String → ODataPage α) (ps : List (ODataPage α))
       (u : String) (acc : List α) (cnt : Option Nat) (fuel : Nat),
       ServesChain host up u ps →
       acc.length + ((ps.map (fun p => p.value.length)).sum) ≤ 1000000 →
       ps.length ≤ fuel →
       ∃ c, fetchPagesLoop host up fuel u acc cnt
         = Except.ok (acc ++ (ps.map (fun p => p.value)).flatten, c)) ∧
    (∀ l : String, isAbsoluteUrl l = true →
       toAbsoluteNextLink host (some l) = some l) ∧
    (∀ l : String, l ≠ "" → isAbsoluteUrl l = false →
       "/".data.isPrefixOf l.data = true →
       toAbsoluteNextLink host (some l) = some (host ++ l)) ∧
    (∀ l : String, l ≠ "" → isAbsoluteUrl l = false →
       "/".data.isPrefixOf l.data = false →
       toAbsoluteNextLink host (some l) = some (host ++ "/" ++ l)) ∧
    (fetchODataPaged c5host c5up 3 "Property" "page1"
      = Except.ok ([1, 2, 3, 4, 5, 6], 6)) := by
  refine ⟨?_, ?_, ?_, ?_, by rfl⟩
  · intro α up ps u acc cnt fuel hchain hbound hfuel
    exact fetchPagesLoop_chain host up ps u hchain acc cnt fuel hbound hfuel
  · intro l habs
    have hne : l ≠ "" := by
      intro he
      subst he
      simp [isAbsoluteUrl, lowerChars] at habs
    simp [toAbsoluteNextLink, hne, habs]
  · intro l hne habs hsl
    simp [toAbsoluteNextLink, hne, habs, hsl]
  · intro l hne habs hsl
    simp [toAbsoluteNextLink, hne, habs, hsl]

/-- Closed witness for C5: the three concrete pages form a served chain
and the loop aggregates them in order. -/
theorem c5_pagination_follows_chain_witness :
    ∃ c, fetchPagesLoop c5host c5up 3
        (c5host ++ "/trestle/odata/Property?page1") ([] : List Nat) none
      = Except.ok
        (([] : List Nat)
          ++ ([c5page1, c5page2, c5page3].map (fun p => p.value)).flatten,
         c) := by
  refine (c5_pagination_follows_chain c5host).1 c5up
    [c5page1, c5page2, c5page3]
    (c5host ++ "/trestle/odata/Property?page1") [] none 3
    ?_ (by decide) (by decide)
  exact ServesChain.step _ (c5host ++ "/trestle/odata/Property?page2") _ _
    (by decide) (by decide)
    (ServesChain.step _ (c5host ++ "/trestle/odata/Property?page3") _ _
      (by decide) (by decide)
      (ServesChain.last _ _ (by decide) (by decide)))

/-- Continuation handling of the ingest page loop (server.js line 810):
url = data at-odata.nextLink or-else null, so a missing or empty link
ends the loop and any other link is re-issued verbatim through
trestleFetch, with no normalization in the loop itself. -/
def ingestNextUrl (link : Option String) : Option String :=
  match link with
  | none => none
  | some l => if l = "" then none else some l

/-- The page loop of GET /admin/ingest/city (server.js lines 783-812):
fetch the page, map each raw record through the thin-item projection f,
append the mapped records, and follow the raw continuation link while a
truthy one remains. Unlike fetchODataPaged there is NO accumulated
record ceiling. Fuel models the unbounded while loop; none is
non-termination. -/
def ingestPageLoop {α β : Type} (up : String → ODataPage α) (f : α → β) :
    Nat → String → List β → Option (List β)
  | 0, _, _ => none
  | fuel + 1, url, all =>
    let page := up url
    let all2 := all ++ page.value.map f
    match ingestNextUrl page.nextLink with
    | none => some all2
    | some u => ingestPageLoop up f fuel u all2

/-- An upstream serves a finite raw-link chain for the ingest page loop:
each page is what the upstream returns for its URL, each page but the
last carries a truthy continuation link leading to the next URL, and the
last page carries none. -/
inductive IngestChain {α : Type} (up : String → ODataPage α) :
    String → List (ODataPage α) → Prop
  | last (u : String) (p : ODataPage α) (h : up u = p)
      (hn : ingestNextUrl p.nextLink = none) :
      IngestChain up u [p]
  | step (u v : String) (p : ODataPage α) (l : List (ODataPage α))
      (h : up u = p) (hn : ingestNextUrl p.nextLink = some v)
      (hc : IngestChain up v l) :
      IngestChain up u (p :: l)

lemma ingestPageLoop_chain {α β : Type} (up : String → ODataPage α)
    (f : α → β) (ps : List (ODataPage α)) (u : String)
    (hchain : IngestChain up u ps) :
    ∀ (all : List β) (fuel : Nat), ps.length ≤ fuel →
      ingestPageLoop up f fuel u all
        = some (all ++ (ps.map (fun p => p.value.map f)).flatten) := by
  induction hchain with
  | last u p hp hn =>
    intro all fuel hfuel
    cases fuel with
    | zero => simp at hfuel
    | succ g =>
      simp only [ingestPageLoop, hp, hn]
      simp
  | step u v p l hp hn hc ih =>
    intro all fuel hfuel
    cases fuel with
    | zero => simp at hfuel
    | succ g =>
      have hfuel2 : l.length ≤ g := by
        simp at hfuel
        omega
      simp only [ingestPageLoop, hp, hn]
      rw [ih (all ++ p.value.map f) g hfuel2]
      simp

/-- A synthetic upstream serving one page of n records (all zero) and
no continuation link. -/
def onePageUp (n : Nat) : String → ODataPage Nat :=
  fun _ => ⟨List.replicate n 0, none, none⟩

/-- C6 counterexample: a call of the paged fetch on the ingest route
returns MORE than 1,000,000 records. Against an upstream serving a
single page of 1,000,001 records, the ingest page loop returns all
1,000,001 of them (some, not an abort), refuting the claimed hard
ceiling for that cited path: the guard exists only in the
fetchODataPaged helper. -/
theorem c6_runaway_counterexample :
    ∃ out,
      ingestPageLoop (onePageUp 1000001) (fun r => r) 1 "/Property?page1" []
          = some out
        ∧ out.length > 1000000 := by
  refine ⟨List.replicate 1000001 0, ?_, by rw [List.length_replicate]; omega⟩
  have hchain : IngestChain (onePageUp 1000001) "/Property?page1"
      [onePageUp 1000001 "/Property?page1"] :=
    IngestChain.last _ _ rfl rfl
  have h := ingestPageLoop_chain (onePageUp 1000001) (fun r : Nat => r)
    [onePageUp 1000001 "/Property?page1"] "/Property?page1" hchain [] 1
    (by simp)
  rw [h, List.nil_append, List.map_cons, List.map_nil, List.flatten_cons,
    List.flatten_nil, List.append_nil]
  show some ((List.replicate 1000001 0).map (fun r => r))
    = some (List.replicate 1000001 0)
  rw [List.map_id']

/-- C6 (amended): the greater-than-1,000,000 ceiling belongs to the
fetchODataPaged helper alone. For that helper, whenever the loop
returns the aggregation has at most 1,000,000 records, and as soon as
the accumulated records exceed 1,000,000 it aborts with the runaway
error in that very iteration, whatever continuation link the page
carries. The ingest-route page loop enforces no ceiling: over any
served chain it returns every accumulated mapped record, so a single
page of n records yields a result of n records for every n. -/
theorem c6_runaway_amended :
    (∀ {α : Type} (host : String) (up : String → ODataPage α) (fuel : Nat)
       (u : String) (acc : List α) (cnt : Option Nat) (l : List α) (c : Nat),
       fetchPagesLoop host up fuel u acc cnt = Except.ok (l, c) →
       l.length ≤ 1000000) ∧
    (∀ {α : Type} (host : String) (up : String → ODataPage α) (fuel : Nat)
       (u : String) (acc : List α) (cnt : Option Nat),
       (acc ++ (up u).value).length > 1000000 →
       fetchPagesLoop host up (fuel + 1) u acc cnt
         = Except.error PagedError.runaway) ∧
    (∀ {α β : Type} (up : String → ODataPage α) (f : α → β)
       (ps : List (ODataPage α)) (u : String) (all : List β) (fuel : Nat),
       IngestChain up u ps → ps.length ≤ fuel →
       ingestPageLoop up f fuel u all
         = some (all ++ (ps.map (fun p => p.value.map f)).flatten)) ∧
    (∀ (n : Nat) (u : String),
       ∃ out, ingestPageLoop (onePageUp n) (fun r => r) 1 u [] = some out
         ∧ out.length = n) := by
  refine ⟨?_, ?_, ?_, ?_⟩
  · intro α host up fuel
    induction fuel with
    | zero =>
      intro u acc cnt l c h
      simp [fetchPagesLoop] at h
    | succ f ih =>
      intro u acc cnt l c h
      simp only [fetchPagesLoop] at h
      by_cases hlen : (acc ++ (up u).value).length > 1000000
      · rw [if_pos hlen] at h
        simp at h
      · rw [if_neg hlen] at h
        cases hnext : toAbsoluteNextLink host (up u).nextLink with
        | none =>
          rw [hnext] at h
          simp at h
          obtain ⟨h1, h2⟩ := h
          subst h1
          simp only [List.length_append] at hlen ⊢
          omega
        | some u2 =>
          rw [hnext] at h
          exact ih u2 _ _ l c h
  · intro α host up fuel u acc cnt h
    simp only [fetchPagesLoop]
    rw [if_pos h]
  · intro α β up f ps u all fuel hchain hfuel
    exact ingestPageLoop_chain up f ps u hchain all fuel hfuel
  · intro n u
    refine ⟨List.replicate n 0, ?_, by rw [List.length_replicate]⟩
    have hchain : IngestChain (onePageUp n) u [onePageUp n u] :=
      IngestChain.last _ _ rfl rfl
    have h := ingestPageLoop_chain (onePageUp n) (fun r : Nat => r)
      [onePageUp n u] u hchain [] 1 (by simp)
    rw [h, List.nil_append, List.map_cons, List.map_nil, List.flatten_cons,
      List.flatten_nil, List.append_nil]
    show some ((List.replicate n 0).map (fun r => r))
      = some (List.replicate n 0)
    rw [List.map_id']

/-- Closed witness for the amended C6: the concrete returned aggregation
is within the helper ceiling, an upstream page of 1,000,001 records
trips the helper guard immediately, the ingest loop aggregates a
concrete one-page chain completely, and a one-page upstream of 3
records yields 3 records. -/
theorem c6_runaway_amended_witness :
    ([1, 2, 3, 4, 5, 6] : List Nat).length ≤ 1000000 ∧
    fetchPagesLoop c5host (onePageUp 1000001) 1 "u" [] none
      = Except.error PagedError.runaway ∧
    ingestPageLoop (onePageUp 3) (fun r => r) 1 "u" []
      = some (([] : List Nat)
          ++ ([onePageUp 3 "u"].map (fun p => p.value.map (fun r => r))).flatten) ∧
    (∃ out, ingestPageLoop (onePageUp 3) (fun r => r) 1 "w" [] = some out
      ∧ out.length = 3) := by
  refine ⟨?_, ?_, ?_, ?_⟩
  · exact c6_runaway_amended.1 c5host c5up 3
      (c5host ++ "/trestle/odata/Property?page1") [] none
      [1, 2, 3, 4, 5, 6] 6 (by rfl)
  · refine c6_runaway_amended.2.1 c5host (onePageUp 1000001) 0 "u" [] none ?_
    show (([] : List Nat) ++ List.replicate 1000001 0).length > 1000000
    rw [List.nil_append, List.length_replicate]
    omega
  · exact c6_runaway_amended.2.2.1 (onePageUp 3) (fun r => r)
      [onePageUp 3 "u"] "u" [] 1 (IngestChain.last _ _ rfl rfl) (by simp)
  · exact c6_runaway_amended.2.2.2 3 "w"

/-- An upstream HTTP response: status code and payload. -/
structure HttpResp where
  status : Nat
  body : String
deriving DecidableEq, Repr

/-- The ok flag of a fetch Response: status in the 2xx range. -/
def respOk (r : HttpResp) : Bool := 200 ≤ r.status && r.status < 300

/-- The observable trace of one page-fetch call: its result, how many
upstream requests it issued, and how many forced token refreshes it
performed. -/
structure FetchTrace (α : Type) where
  result : α
  requests : Nat
  refreshes : Nat
deriving Repr

/-- trestleFetch (server.js lines 161-176): issues a single request with
the cached token; any non-2xx response, 401 included, is thrown as an
error -- there is no token refresh and no retry on this path.  The
upstream is modelled as the sequence of responses it would give to
successive requests; this path only ever issues request 0. -/
def trestleFetch (up : Nat → HttpResp) : FetchTrace (Except String String) :=
  let r := up 0
  if respOk r then ⟨Except.ok r.body, 1, 0⟩
  else ⟨Except.error ("Trestle " ++ toString r.status ++ ": " ++ r.body), 1, 0⟩

/-- The proxy handler of part_003 (lines 126-158): issues the request;
on a 401 response it clears the cached token, forces one refresh, and
retries the same request exactly once, returning the retry response
whatever its status; any other first response is returned directly. -/
def proxyTrestleRequest (up : Nat → HttpResp) : FetchTrace HttpResp :=
  let r0 := up 0
  if r0.status = 401 then ⟨up 1, 2, 1⟩
  else ⟨r0, 1, 0⟩

/-- A concrete upstream that answers 401 to every request. -/
def c7up401 : Nat → HttpResp := fun _ => ⟨401, "Unauthorized"⟩

/-- C7 counterexample: the direct trestleFetch page-fetch path receives
a 401 and performs zero token refreshes and zero retries (one single
request), contradicting the claimed exactly-one-refresh-and-one-retry
behaviour; it simply fails with the upstream error. -/
theorem c7_retry_counterexample :
    (trestleFetch c7up401).refreshes = 0 ∧
    (trestleFetch c7up401).requests = 1 ∧
    (trestleFetch c7up401).result
      = Except.error "Trestle 401: Unauthorized" ∧
    (0 : Nat) ≠ 1 := by
  exact ⟨rfl, rfl, rfl, by decide⟩

/-- C7 amended: the proxy page-fetch path (part_003) performs exactly
one forced token refresh and one retry of the same request on a 401
first response, returning the retry response (so it fails only if the
retry also fails); it never issues more than two requests, never
refreshes more than once, and never retries on a non-401 response.  The
direct trestleFetch path (server.js) performs no refresh and no retry at
all: it issues one request and surfaces any non-2xx response, 401
included, as an error. -/
theorem c7_retry_amended (up : Nat → HttpResp) :
    ((up 0).status = 401 →
      proxyTrestleRequest up = ⟨up 1, 2, 1⟩) ∧
    ((up 0).status ≠ 401 →
      proxyTrestleRequest up = ⟨up 0, 1, 0⟩) ∧
    (proxyTrestleRequest up).requests ≤ 2 ∧
    (proxyTrestleRequest up).refreshes ≤ 1 ∧
    ((trestleFetch up).requests = 1 ∧ (trestleFetch up).refreshes = 0) ∧
    (respOk (up 0) = false →
      ∃ e, (trestleFetch up).result = Except.error e) := by
  by_cases h : (up 0).status = 401
  · refine ⟨fun _ => by simp [proxyTrestleRequest, h],
      fun hne => absurd h hne, ?_, ?_, ?_, ?_⟩
    · simp [proxyTrestleRequest, h]
    · simp [proxyTrestleRequest, h]
    · by_cases hok : respOk (up 0) = true
      · exact ⟨by simp [trestleFetch, hok], by simp [trestleFetch, hok]⟩
      · simp only [Bool.not_eq_true] at hok
        exact ⟨by simp [trestleFetch, hok], by simp [trestleFetch, hok]⟩
    · intro hbad
      exact ⟨"Trestle " ++ toString (up 0).status ++ ": " ++ (up 0).body,
        by simp [trestleFetch, hbad]⟩
  · refine ⟨fun he => absurd he h,
      fun _ => by simp [proxyTrestleRequest, h], ?_, ?_, ?_, ?_⟩
    · simp [proxyTrestleRequest, h]
    · simp [proxyTrestleRequest, h]
    · by_cases hok : respOk (up 0) = true
      · exact ⟨by simp [trestleFetch, hok], by simp [trestleFetch, hok]⟩
      · simp only [Bool.not_eq_true] at hok
        exact ⟨by simp [trestleFetch, hok], by simp [trestleFetch, hok]⟩
    · intro hbad
      exact ⟨"Trestle " ++ toString (up 0).status ++ ": " ++ (up 0).body,
        by simp [trestleFetch, hbad]⟩

/-- Closed witness for C7: on an upstream answering 401 twice, the proxy
path refreshes once and returns the retry response. -/
theorem c7_retry_amended_witness :
    proxyTrestleRequest c7up401
      = ⟨c7up401 1, 2, 1⟩ := by
  exact (c7_retry_amended c7up401).1 rfl

/-- A record with photos changed (11) after the last image build (10). -/
def c8recStale : StoredListing :=
  { emptyStored "K" with
      CdnPrimary400 := some "cdn"
      ImagesUpdatedAt := some 10
      PhotosChangeTimestamp := some 11 }

/-- A record with the last image build (11) after the photo change (10). -/
def c8recFresh : StoredListing :=
  { emptyStored "K" with
      CdnPrimary400 := some "cdn"
      ImagesUpdatedAt := some 11
      PhotosChangeTimestamp := some 10 }

/-- A record that never had a primary CDN image built. -/
def c8recNoCdn : StoredListing :=
  { emptyStored "K" with
      ImagesUpdatedAt := some 10
      PhotosChangeTimestamp := some 11 }

/-- isImageStale (server.js lines 213-222): stale when the primary CDN
image was never built or no image-build timestamp was ever recorded;
otherwise, stale exactly when the upstream photo-change timestamp is
strictly newer than the last image build; with no photo-change timestamp
at all, not stale. -/
def isImageStale (it : StoredListing) : Bool :=
  if !jsTruthyStr it.CdnPrimary400 || it.ImagesUpdatedAt.isNone then true
  else
    match it.PhotosChangeTimestamp, it.ImagesUpdatedAt with
    | some p, some iua => decide (iua < p)
    | _, _ => false

/-- C8: the staleness predicate is a pure function of the record: true
whenever CdnPrimary400 is absent (or empty, which JS treats as falsy) or
ImagesUpdatedAt is absent; otherwise true iff PhotosChangeTimestamp is
strictly greater than ImagesUpdatedAt (false when no photo-change
timestamp is recorded, which is not greater); in particular
PhotosChangeTimestamp T+1 with ImagesUpdatedAt T is stale and
PhotosChangeTimestamp T with ImagesUpdatedAt T+1 is not (T = 10). -/
theorem c8_staleness_predicate (it : StoredListing) :
    (jsTruthyStr it.CdnPrimary400 = false → isImageStale it = true) ∧
    (it.ImagesUpdatedAt = none → isImageStale it = true) ∧
    (∀ p iua, jsTruthyStr it.CdnPrimary400 = true →
      it.ImagesUpdatedAt = some iua → it.PhotosChangeTimestamp = some p →
      isImageStale it = decide (iua < p)) ∧
    (jsTruthyStr it.CdnPrimary400 = true → it.ImagesUpdatedAt.isSome →
      it.PhotosChangeTimestamp = none → isImageStale it = false) ∧
    (isImageStale c8recStale = true) ∧
    (isImageStale c8recFresh = false) ∧
    (isImageStale c8recNoCdn = true) := by
  refine ⟨?_, ?_, ?_, ?_, by decide, by decide, by decide⟩
  · intro h
    simp [isImageStale, h]
  · intro h
    simp [isImageStale, h]
  · intro p iua hc hi hp
    simp [isImageStale, hc, hi, hp]
  · intro hc hi hp
    cases hiu : it.ImagesUpdatedAt with
    | none => rw [hiu] at hi; simp at hi
    | some iua => simp [isImageStale, hc, hiu, hp]

/-- Closed witness for C8 at a concrete record with both timestamps. -/
theorem c8_staleness_predicate_witness :
    isImageStale c8recStale = decide ((10 : Nat) < 11) := by
  exact (c8_staleness_predicate c8recStale).2.2.1 11 10 (by decide)
    (by decide) (by decide)

/-- One SQS batch entry: Id and MessageBody. -/
structure SqsEntry where
  id : String
  messageBody : String
deriving DecidableEq, Repr

/-- The JSON body of a primary-400 job (server.js line 234). -/
def mkPrimaryBody (key : String) : String :=
  "\x7b\"type\":\"primary\",\"listingKey\":\"" ++ key ++ "\",\"width\":400\x7d"

/-- The JSON body of a gallery-400 job (server.js line 254). -/
def mkGalleryBody (key : String) (per : Nat) : String :=
  "\x7b\"type\":\"gallery\",\"listingKey\":\"" ++ key
    ++ "\",\"width\":400,\"per\":" ++ toString per ++ "\x7d"

/-- The Entries array built for one slice: Id is the global index i+idx
as a string, the body is the job JSON (server.js lines 232-235). -/
def sqsEntries (mkBody : String → String) : Nat → List String → List SqsEntry
  | _, [] => []
  | i, k :: rest => ⟨toString i, mkBody k⟩ :: sqsEntries mkBody (i + 1) rest

/-- The batching loop shared by enqueuePrimaryBatch and
enqueueGalleryBatch (server.js lines 230-241 and 250-261): step through
the keys 10 at a time, send each slice as one batch call, and add
Entries.length minus the failed-entry count of the response to the
accumulator; failures never throw.  failedOf models the Failed array
length the queue reports for a given batch.  The JS for loop always
terminates because the index advances by 10; structurally that is
expressed with a fuel argument, and fuel keys.length is always enough. -/
def sqsBatchLoop (mkBody : String → String)
    (failedOf : List SqsEntry → Nat) (keys : List String) :
    Nat → Nat → Int → Int
  | 0, _, acc => acc
  | n + 1, i, acc =>
    if i < keys.length then
      sqsBatchLoop mkBody failedOf keys n (i + 10)
        (acc + (((sqsEntries mkBody i ((keys.drop i).take 10)).length : Int)
          - (failedOf (sqsEntries mkBody i ((keys.drop i).take 10)) : Int)))
    else acc

/-- enqueuePrimaryBatch (server.js lines 226-243). -/
def enqueuePrimaryBatch (failedOf : List SqsEntry → Nat)
    (keys : List String) : Int :=
  sqsBatchLoop mkPrimaryBody failedOf keys keys.length 0 0

/-- enqueueGalleryBatch (server.js lines 246-263). -/
def enqueueGalleryBatch (failedOf : List SqsEntry → Nat)
    (keys : List String) (per : Nat) : Int :=
  sqsBatchLoop (fun k => mkGalleryBody k per) failedOf keys keys.length 0 0

/-- The successive batch calls the loop issues, in call order. -/
def sqsBatches (mkBody : String → String) (keys : List String) :
    Nat → Nat → List (List SqsEntry)
  | 0, _ => []
  | n + 1, i =>
    if i < keys.length then
      sqsEntries mkBody i ((keys.drop i).take 10)
        :: sqsBatches mkBody keys n (i + 10)
    else []

/-- The batch calls of enqueuePrimaryBatch. -/
def primaryBatches (keys : List String) : List (List SqsEntry) :=
  sqsBatches mkPrimaryBody keys keys.length 0

lemma sqsEntries_length (mkBody : String → String) (l : List String) :
    ∀ i, (sqsEntries mkBody i l).length = l.length := by
  induction l with
  | nil => intro i; rfl
  | cons k rest ih =>
    intro i
    simp [sqsEntries, ih]

lemma sqsEntries_bodies (mkBody : String → String) (l : List String) :
    ∀ i, (sqsEntries mkBody i l).map (fun e => e.messageBody)
      = l.map mkBody := by
  induction l with
  | nil => intro i; rfl
  | cons k rest ih =>
    intro i
    simp [sqsEntries, ih]

lemma sqsBatchLoop_spec (mkBody : String → String)
    (failedOf : List SqsEntry → Nat) (keys : List String) :
    ∀ (n i : Nat) (acc : Int), keys.length - i ≤ n →
      sqsBatchLoop mkBody failedOf keys n i acc
        = acc + ((sqsBatches mkBody keys n i).map
            (fun b => (b.length : Int) - (failedOf b : Int))).sum := by
  intro n
  induction n with
  | zero =>
    intro i acc _h
    simp [sqsBatchLoop, sqsBatches]
  | succ n ih =>
    intro i acc h
    by_cases hi : i < keys.length
    · rw [sqsBatchLoop, sqsBatches, if_pos hi, if_pos hi]
      rw [ih (i + 10) _ (by omega)]
      rw [List.map_cons, List.sum_cons]
      ring
    · rw [sqsBatchLoop, sqsBatches, if_neg hi, if_neg hi]
      simp

lemma sqsBatches_size (mkBody : String → String) (keys : List String) :
    ∀ (n i : Nat), ∀ b ∈ sqsBatches mkBody keys n i, b.length ≤ 10 := by
  intro n
  induction n with
  | zero =>
    intro i b hb
    simp [sqsBatches] at hb
  | succ n ih =>
    intro i b hb
    by_cases hi : i < keys.length
    · rw [sqsBatches, if_pos hi] at hb
      rcases List.mem_cons.mp hb with hb | hb
      · subst hb
        rw [sqsEntries_length]
        simp
      · exact ih (i + 10) b hb
    · rw [sqsBatches, if_neg hi] at hb
      simp at hb

lemma sqsBatches_bodies (mkBody : String → String) (keys : List String) :
    ∀ (n i : Nat), keys.length - i ≤ n →
      ((sqsBatches mkBody keys n i).flatten).map (fun e => e.messageBody)
        = (keys.drop i).map mkBody := by
  intro n
  induction n with
  | zero =>
    intro i h
    rw [sqsBatches]
    rw [List.drop_eq_nil_of_le (by omega)]
    simp
  | succ n ih =>
    intro i h
    by_cases hi : i < keys.length
    · rw [sqsBatches, if_pos hi]
      rw [List.flatten_cons, List.map_append]
      rw [sqsEntries_bodies, ih (i + 10) (by omega)]
      rw [← List.map_append]
      have hdd : keys.drop (i + 10) = (keys.drop i).drop 10 := by
        rw [← List.drop_drop]
      rw [hdd, List.take_append_drop]
    · rw [sqsBatches, if_neg hi]
      rw [List.drop_eq_nil_of_le (by omega)]
      simp

lemma sum_length_sub (failedOf : List SqsEntry → Nat)
    (bs : List (List SqsEntry)) :
    (bs.map (fun b => (b.length : Int) - (failedOf b : Int))).sum
      = ((bs.map (fun b => (b.length : Int))).sum
          - (bs.map (fun b => (failedOf b : Int))).sum) := by
  induction bs with
  | nil => simp
  | cons b rest ih =>
    simp only [List.map_cons, List.sum_cons, ih]
    ring

lemma sqsBatches_total_length (mkBody : String → String)
    (keys : List String) :
    ((sqsBatches mkBody keys keys.length 0).map
        (fun b => (b.length : Int))).sum
      = (keys.length : Int) := by
  have hb := sqsBatches_bodies mkBody keys keys.length 0 (by omega)
  have hlen : ((sqsBatches mkBody keys keys.length 0).flatten).length
      = keys.length := by
    have h2 := congrArg List.length hb
    rw [List.length_map, List.length_map] at h2
    simpa using h2
  have hcast : ∀ (bs : List (List SqsEntry)),
      (bs.map (fun b => (b.length : Int))).sum
        = (((bs.map (fun b => b.length)).sum : Nat) : Int) := by
    intro bs
    induction bs with
    | nil => simp
    | cons b rest ih => simp [ih]
  rw [hcast]
  congr 1
  rw [← List.length_flatten]
  exact hlen

/-- 25 job keys, the stringified numbers 0 to 24. -/
def c9keys25 : List String := (List.range 25).map (fun n => toString n)

/-- A queue behaviour that rejects 2 entries of the second batch (the
batch whose first entry has the global Id 10) and accepts all others. -/
def c9failedOf : List SqsEntry → Nat := fun b =>
  match b.head? with
  | some e => if e.id = "10" then 2 else 0
  | none => 0

/-- C9: the dispatcher splits the job list into consecutive batches of
at most 10 (every batch has at most 10 entries, and the concatenation of
the batch bodies is exactly the job list in order); the accepted count
equals the total number of jobs minus the failed entries the queue
reports, for both the primary and the gallery dispatcher, and batch
failures never fail the overall call (both dispatchers are total
functions into the accepted count); concretely, 25 jobs produce 3 batch
calls of sizes 10, 10 and 5, and with 2 entries of the second batch
failing the accepted count is 23. -/
theorem c9_batch_dispatch :
    (∀ keys : List String, ∀ b ∈ primaryBatches keys, b.length ≤ 10) ∧
    (∀ keys : List String,
      ((primaryBatches keys).flatten).map (fun e => e.messageBody)
        = keys.map mkPrimaryBody) ∧
    (∀ (keys : List String) (failedOf : List SqsEntry → Nat),
      enqueuePrimaryBatch failedOf keys
        = (keys.length : Int)
          - ((primaryBatches keys).map (fun b => (failedOf b : Int))).sum) ∧
    (∀ (keys : List String) (failedOf : List SqsEntry → Nat) (per : Nat),
      enqueueGalleryBatch failedOf keys per
        = (keys.length : Int)
          - ((sqsBatches (fun k => mkGalleryBody k per) keys
              keys.length 0).map (fun b => (failedOf b : Int))).sum) ∧
    ((primaryBatches c9keys25).map (fun b => b.length) = [10, 10, 5]) ∧
    (enqueuePrimaryBatch c9failedOf c9keys25 = 23) := by
  refine ⟨?_, ?_, ?_, ?_, by decide, by decide⟩
  · intro keys b hb
    exact sqsBatches_size mkPrimaryBody keys keys.length 0 b hb
  · intro keys
    have h := sqsBatches_bodies mkPrimaryBody keys keys.length 0 (by omega)
    simpa using h
  · intro keys failedOf
    show sqsBatchLoop mkPrimaryBody failedOf keys keys.length 0 0 = _
    rw [sqsBatchLoop_spec mkPrimaryBody failedOf keys keys.length 0 0
      (by omega)]
    rw [sum_length_sub, sqsBatches_total_length]
    rw [zero_add]
    rfl
  · intro keys failedOf per
    show sqsBatchLoop (fun k => mkGalleryBody k per) failedOf keys
      keys.length 0 0 = _
    rw [sqsBatchLoop_spec (fun k => mkGalleryBody k per) failedOf keys
      keys.length 0 0 (by omega)]
    rw [sum_length_sub, sqsBatches_total_length]
    rw [zero_add]

/-- Closed witness for C9 on a concrete two-job batch. -/
theorem c9_batch_dispatch_witness :
    (sqsEntries mkPrimaryBody 0 ["a", "b"]).length ≤ 10 := by
  exact c9_batch_dispatch.1 ["a", "b"] _ (by decide)

/-- The double-quote character. -/
def dquote : Char := Char.ofNat 34

/-- The comma character. -/
def commaChar : Char := Char.ofNat 44

/-- The closing-brace character. -/
def rbraceChar : Char := Char.ofNat 125

/-- The backslash character. -/
def bslash : Char := Char.ofNat 92

/-- The decimal digit character of a value below 10. -/
def digitChar (n : Nat) : Char := Char.ofNat (48 + n)

/-- Decimal digits of a number, most significant first, written with a
fuel argument for structural recursion; fuel n is always enough since
the number of digits is at most n + 1. -/
def natDigitsAux : Nat → Nat → List Char
  | 0, n => [digitChar n]
  | f + 1, n =>
    if n < 10 then [digitChar n]
    else natDigitsAux f (n / 10) ++ [digitChar (n % 10)]

/-- The decimal-digit string of a number (the JSON number printing of
JSON.stringify). -/
def natDigits (n : Nat) : List Char := natDigitsAux n n

/-- The numeric value of a decimal digit character, none otherwise. -/
def digitVal (c : Char) : Option Nat :=
  if 48 ≤ c.toNat ∧ c.toNat ≤ 57 then some (c.toNat - 48) else none

/-- Fold decimal digits into a value, failing on a non-digit. -/
def parseDigitsAux : List Char → Nat → Option Nat
  | [], acc => some acc
  | c :: rest, acc =>
    match digitVal c with
    | none => none
    | some d => parseDigitsAux rest (acc * 10 + d)

/-- Parse a nonempty decimal-digit string (the JSON number parsing of
JSON.parse, restricted to the natural numbers this model prints). -/
def parseDigits (l : List Char) : Option Nat :=
  match l with
  | [] => none
  | _ => parseDigitsAux l 0

lemma digitVal_digitChar : ∀ d, d < 10 → digitVal (digitChar d) = some d := by
  decide

lemma parseDigitsAux_append (l1 l2 : List Char) :
    ∀ acc, parseDigitsAux (l1 ++ l2) acc
      = match parseDigitsAux l1 acc with
        | none => none
        | some v => parseDigitsAux l2 v := by
  induction l1 with
  | nil => intro acc; rfl
  | cons c rest ih =>
    intro acc
    simp only [List.cons_append, parseDigitsAux]
    cases digitVal c with
    | none => rfl
    | some d => exact ih (acc * 10 + d)

lemma parseDigitsAux_natDigitsAux :
    ∀ (f n acc : Nat), n ≤ f →
      parseDigitsAux (natDigitsAux f n) acc
        = some (acc * 10 ^ (natDigitsAux f n).length + n) := by
  intro f
  induction f with
  | zero =>
    intro n acc h
    have hn : n = 0 := by omega
    subst hn
    simp [natDigitsAux, parseDigitsAux, digitVal_digitChar 0 (by omega)]
  | succ f ih =>
    intro n acc h
    by_cases hn : n < 10
    · simp [natDigitsAux, hn, parseDigitsAux, digitVal_digitChar n hn]
    · have hrec := ih (n / 10) acc (by omega)
      simp only [natDigitsAux, if_neg hn]
      rw [parseDigitsAux_append, hrec]
      simp only [parseDigitsAux, digitVal_digitChar (n % 10) (by omega)]
      rw [List.length_append]
      simp only [List.length_cons, List.length_nil]
      rw [pow_succ]
      have : (acc * 10 ^ (natDigitsAux f (n / 10)).length + n / 10) * 10
          + n % 10
          = acc * (10 ^ (natDigitsAux f (n / 10)).length * 10) + n := by
        have hdm := Nat.div_add_mod n 10
        ring_nf
        omega
      rw [this]

lemma natDigits_ne_nil (n : Nat) : natDigits n ≠ [] := by
  unfold natDigits
  cases n with
  | zero => simp [natDigitsAux]
  | succ m =>
    simp only [natDigitsAux]
    by_cases h : m + 1 < 10
    · simp [h]
    · simp [h]

lemma parseDigits_natDigits (n : Nat) : parseDigits (natDigits n) = some n := by
  have h := parseDigitsAux_natDigitsAux n n 0 (by omega)
  have hne := natDigits_ne_nil n
  unfold parseDigits
  cases hd : natDigits n with
  | nil => exact absurd hd hne
  | cons c rest =>
    show parseDigitsAux (c :: rest) 0 = some n
    rw [← hd]
    unfold natDigits
    rw [h]
    simp

lemma digitChar_ascii :
    ∀ d, d < 10 → 48 ≤ (digitChar d).toNat ∧ (digitChar d).toNat ≤ 57 := by
  decide

lemma natDigitsAux_digits :
    ∀ (f n : Nat), n ≤ f → ∀ c ∈ natDigitsAux f n,
      48 ≤ c.toNat ∧ c.toNat ≤ 57 := by
  intro f
  induction f with
  | zero =>
    intro n h c hc
    have hn : n = 0 := by omega
    subst hn
    simp [natDigitsAux] at hc
    subst hc
    exact digitChar_ascii 0 (by omega)
  | succ f ih =>
    intro n h c hc
    simp only [natDigitsAux] at hc
    by_cases hn : n < 10
    · rw [if_pos hn] at hc
      simp at hc
      subst hc
      exact digitChar_ascii n hn
    · rw [if_neg hn] at hc
      rcases List.mem_append.mp hc with hc | hc
      · exact ih (n / 10) (by omega) c hc
      · simp at hc
        subst hc
        exact digitChar_ascii (n % 10) (by omega)

lemma natDigits_digits (n : Nat) :
    ∀ c ∈ natDigits n, 48 ≤ c.toNat ∧ c.toNat ≤ 57 :=
  natDigitsAux_digits n n (by omega)

lemma commaChar_not_mem_natDigits (n : Nat) : commaChar ∉ natDigits n := by
  intro h
  have := natDigits_digits n commaChar h
  revert this
  decide

/-- Split a character list at the first occurrence of a delimiter,
dropping the delimiter; none when the delimiter does not occur. -/
def takeUntil (c : Char) : List Char → Option (List Char × List Char)
  | [] => none
  | x :: xs =>
    if x = c then some ([], xs)
    else
      match takeUntil c xs with
      | none => none
      | some (a, b) => some (x :: a, b)

/-- Strip an expected prefix, returning the remainder; none when the
input does not start with the prefix. -/
def stripPre : List Char → List Char → Option (List Char)
  | [], l => some l
  | _ :: _, [] => none
  | x :: p, y :: l => if y = x then stripPre p l else none

lemma takeUntil_spec (c : Char) :
    ∀ (a b : List Char), c ∉ a → takeUntil c (a ++ c :: b) = some (a, b) := by
  intro a
  induction a with
  | nil =>
    intro b _h
    simp [takeUntil]
  | cons x rest ih =>
    intro b h
    have hx : ¬ x = c := fun he => h (he ▸ List.mem_cons_self x rest)
    have hrest : c ∉ rest := fun hm => h (List.mem_cons_of_mem x hm)
    simp only [List.cons_append, takeUntil, if_neg hx]
    simp only [List.append_eq]
    rw [ih b hrest]

lemma stripPre_append : ∀ (p l : List Char), stripPre p (p ++ l) = some l := by
  intro p
  induction p with
  | nil => intro l; rfl
  | cons x rest ih =>
    intro l
    simp only [List.cons_append, stripPre, if_pos rfl]
    exact ih l

/-- The padding character of base64. -/
def b64pad : Char := Char.ofNat 61

/-- The standard base64 alphabet. -/
def b64alphabet : List Char :=
  "ABCDEFGHIJKLMNOPQRSTUVWXYZabcdefghijklmnopqrstuvwxyz0123456789+/".data

/-- The base64 character of a 6-bit value. -/
def encB64 (i : Nat) : Char := b64alphabet.getD i (Char.ofNat 65)

/-- The 6-bit value of a base64 character, none for anything else. -/
def decB64 (c : Char) : Option Nat :=
  b64alphabet.findIdx? (fun x => x = c)

/-- Base64-encode a byte list (the Buffer toString base64 of the JS
cursor encoding), 3 bytes to 4 characters with padding. -/
def b64encodeBytes : List Nat → List Char
  | [] => []
  | [a] => [encB64 (a / 4), encB64 (a % 4 * 16), b64pad, b64pad]
  | [a, b] =>
    [encB64 (a / 4), encB64 (a % 4 * 16 + b / 16), encB64 (b % 16 * 4), b64pad]
  | a :: b :: c :: rest =>
    encB64 (a / 4) :: encB64 (a % 4 * 16 + b / 16)
      :: encB64 (b % 16 * 4 + c / 64) :: encB64 (c % 64)
      :: b64encodeBytes rest

/-- Base64-decode a character list (the Buffer from base64 of the JS
cursor decoding), inverse grouping of four characters. -/
def b64decodeBytes : List Char → Option (List Nat)
  | [] => some []
  | w :: x :: y :: z :: rest =>
    (match decB64 w, decB64 x with
     | some a, some b =>
       if y = b64pad ∧ z = b64pad ∧ rest = [] then some [a * 4 + b / 16]
       else if z = b64pad ∧ rest = [] then
         match decB64 y with
         | some c => some [a * 4 + b / 16, b % 16 * 16 + c / 4]
         | none => none
       else
         match decB64 y, decB64 z with
         | some c, some d =>
           (match b64decodeBytes rest with
            | some bs =>
              some ((a * 4 + b / 16) :: (b % 16 * 16 + c / 4)
                :: (c % 4 * 64 + d) :: bs)
            | none => none)
         | _, _ => none
     | _, _ => none)
  | _ => none

lemma decB64_encB64 : ∀ v, v < 64 → decB64 (encB64 v) = some v := by
  decide

lemma encB64_ne_pad : ∀ v, v < 64 → encB64 v ≠ b64pad := by
  decide

lemma b64_roundtrip :
    ∀ (bs : List Nat), (∀ x ∈ bs, x < 256) →
      b64decodeBytes (b64encodeBytes bs) = some bs
  | [], _ => rfl
  | [a], h => by
    have ha : a < 256 := h a (by simp)
    have e1 := decB64_encB64 (a / 4) (by omega)
    have e2 := decB64_encB64 (a % 4 * 16) (by omega)
    simp [b64encodeBytes, b64decodeBytes, e1, e2]
    omega
  | [a, b], h => by
    have ha : a < 256 := h a (by simp)
    have hb : b < 256 := h b (by simp)
    have e1 := decB64_encB64 (a / 4) (by omega)
    have e2 := decB64_encB64 (a % 4 * 16 + b / 16) (by omega)
    have e3 := decB64_encB64 (b % 16 * 4) (by omega)
    have hne : encB64 (b % 16 * 4) ≠ b64pad := encB64_ne_pad _ (by omega)
    simp [b64encodeBytes, b64decodeBytes, e1, e2, e3, hne]
    omega
  | a :: b :: c :: rest, h => by
    have ha : a < 256 := h a (by simp)
    have hb : b < 256 := h b (by simp)
    have hc : c < 256 := h c (by simp)
    have ih := b64_roundtrip rest (fun x hx => h x (by simp [hx]))
    have e1 := decB64_encB64 (a / 4) (by omega)
    have e2 := decB64_encB64 (a % 4 * 16 + b / 16) (by omega)
    have e3 := decB64_encB64 (b % 16 * 4 + c / 64) (by omega)
    have e4 := decB64_encB64 (c % 64) (by omega)
    have hne3 : encB64 (b % 16 * 4 + c / 64) ≠ b64pad :=
      encB64_ne_pad _ (by omega)
    have hne4 : encB64 (c % 64) ≠ b64pad := encB64_ne_pad _ (by omega)
    simp [b64encodeBytes, b64decodeBytes, e1, e2, e3, e4, hne3, hne4, ih]
    refine ⟨by omega, by omega, by omega⟩

/-- A LastEvaluatedKey of the CityNorm-ModificationTimestamp index: the
partition key, the sort key (an epoch number in this model) and the
table key. -/
structure LastKey where
  CityNorm : String
  ModificationTimestamp : Nat
  ListingKey : String
deriving DecidableEq, Repr

/-- The literal fragments of the JSON serialization of a LastKey, split
exactly where the parser splits. -/
def jsonPre1 : List Char := "\x7b\"CityNorm\":\"".data

/-- The fragment between the CityNorm value and the sort-key value. -/
def jsonMid1 : List Char := ",\"ModificationTimestamp\":".data

/-- The fragment between the sort-key value and the ListingKey value. -/
def jsonMid2 : List Char := "\"ListingKey\":\"".data

/-- The serialized key characters: JSON.stringify of the key object
with its three attributes in construction order. -/
def printKeyChars (k : LastKey) : List Char :=
  jsonPre1 ++ k.CityNorm.data ++ [dquote] ++ jsonMid1
    ++ natDigits k.ModificationTimestamp ++ [commaChar] ++ jsonMid2
    ++ k.ListingKey.data ++ [dquote] ++ [rbraceChar]

/-- JSON.stringify of a LastKey. -/
def printKey (k : LastKey) : String := String.mk (printKeyChars k)

/-- JSON.parse of a serialized LastKey, restricted to the shape this
model prints (string values without embedded escapes). -/
def parseKey (s : String) : Option LastKey :=
  (stripPre jsonPre1 s.data).bind fun r1 =>
  (takeUntil dquote r1).bind fun p =>
  (stripPre jsonMid1 p.2).bind fun r3 =>
  (takeUntil commaChar r3).bind fun q =>
  (parseDigits q.1).bind fun v =>
  (stripPre jsonMid2 q.2).bind fun r5 =>
  (takeUntil dquote r5).bind fun w =>
  if w.2 = [rbraceChar] then
    some ⟨String.mk p.1, v, String.mk w.1⟩
  else none

lemma parseKey_printKey (k : LastKey)
    (hc : dquote ∉ k.CityNorm.data) (hl : dquote ∉ k.ListingKey.data) :
    parseKey (printKey k) = some k := by
  unfold parseKey printKey printKeyChars
  have hdata : (String.mk (jsonPre1 ++ k.CityNorm.data ++ [dquote] ++ jsonMid1
      ++ natDigits k.ModificationTimestamp ++ [commaChar] ++ jsonMid2
      ++ k.ListingKey.data ++ [dquote] ++ [rbraceChar])).data
      = jsonPre1 ++ (k.CityNorm.data ++ dquote
        :: (jsonMid1 ++ (natDigits k.ModificationTimestamp ++ commaChar
          :: (jsonMid2 ++ (k.ListingKey.data ++ dquote
            :: [rbraceChar]))))) := by
    simp
  rw [hdata, stripPre_append]
  simp only [Option.some_bind]
  rw [takeUntil_spec dquote _ _ hc]
  simp only [Option.some_bind]
  rw [stripPre_append]
  simp only [Option.some_bind]
  rw [takeUntil_spec commaChar _ _ (commaChar_not_mem_natDigits _)]
  simp only [Option.some_bind]
  rw [parseDigits_natDigits]
  simp only [Option.some_bind]
  rw [stripPre_append]
  simp only [Option.some_bind]
  rw [takeUntil_spec dquote _ _ hl]
  simp only [Option.some_bind]
  simp only [if_true]

/-- The byte sequence of an ASCII string (the UTF-8 bytes used by the
JS Buffer conversions; on ASCII they are the code points). -/
def asciiBytes (s : String) : List Nat := s.data.map Char.toNat

/-- The string of an ASCII byte sequence. -/
def bytesAscii (l : List Nat) : String := String.mk (l.map Char.ofNat)

/-- The cursor issued by the search route (server.js lines 974-977):
base64 of JSON.stringify of the LastEvaluatedKey. -/
def encodeCursor (k : LastKey) : String :=
  String.mk (b64encodeBytes (asciiBytes (printKey k)))

/-- The cursor accepted by the search route (server.js lines 913-915):
JSON.parse of the base64-decoded query parameter; none models the
JSON.parse throw on garbage. -/
def decodeCursor (s : String) : Option LastKey :=
  match b64decodeBytes s.data with
  | none => none
  | some bs => parseKey (bytesAscii bs)

/-- Strings whose characters stay within printable ASCII, so that the
UTF-8 byte model and the JSON printing stay exact. -/
def asciiOk (s : String) : Prop := ∀ c ∈ s.data, c.toNat < 128

lemma forall_mem_append_split {p : Char → Prop} {l1 l2 : List Char}
    (a : ∀ c ∈ l1, p c) (b : ∀ c ∈ l2, p c) : ∀ c ∈ l1 ++ l2, p c := by
  intro c hc
  rcases List.mem_append.mp hc with h | h
  · exact a c h
  · exact b c h

lemma printKey_ascii (k : LastKey) (h1 : asciiOk k.CityNorm)
    (h2 : asciiOk k.ListingKey) :
    ∀ c ∈ printKeyChars k, c.toNat < 128 := by
  have hpre : ∀ c ∈ jsonPre1, c.toNat < 128 := by decide
  have hm1 : ∀ c ∈ jsonMid1, c.toNat < 128 := by decide
  have hm2 : ∀ c ∈ jsonMid2, c.toNat < 128 := by decide
  have hdq : ∀ c ∈ [dquote], c.toNat < 128 := by decide
  have hcm : ∀ c ∈ [commaChar], c.toNat < 128 := by decide
  have hrb : ∀ c ∈ [rbraceChar], c.toNat < 128 := by decide
  have hdig : ∀ c ∈ natDigits k.ModificationTimestamp, c.toNat < 128 := by
    intro c hcd
    have := natDigits_digits _ c hcd
    omega
  unfold printKeyChars
  exact forall_mem_append_split (forall_mem_append_split
    (forall_mem_append_split (forall_mem_append_split
      (forall_mem_append_split (forall_mem_append_split
        (forall_mem_append_split (forall_mem_append_split
          (forall_mem_append_split hpre h1) hdq) hm1) hdig) hcm) hm2)
      h2) hdq) hrb

lemma bytesAscii_asciiBytes (s : String) :
    bytesAscii (asciiBytes s) = s := by
  unfold bytesAscii asciiBytes
  cases s with
  | mk l =>
    congr 1
    rw [List.map_map]
    have : ∀ c : Char, (Char.ofNat ∘ Char.toNat) c = id c := by
      intro c
      simp [Char.ofNat_toNat]
    rw [List.map_congr_left (fun c _ => this c), List.map_id]

lemma decodeCursor_encodeCursor (k : LastKey)
    (hc : dquote ∉ k.CityNorm.data) (hl : dquote ∉ k.ListingKey.data)
    (h1 : asciiOk k.CityNorm) (h2 : asciiOk k.ListingKey) :
    decodeCursor (encodeCursor k) = some k := by
  unfold decodeCursor encodeCursor
  have hbytes : ∀ x ∈ asciiBytes (printKey k), x < 256 := by
    intro x hx
    simp only [asciiBytes, printKey, List.mem_map] at hx
    obtain ⟨c, hc1, rfl⟩ := hx
    have := printKey_ascii k h1 h2 c hc1
    omega
  have hdec := b64_roundtrip (asciiBytes (printKey k)) hbytes
  show (match b64decodeBytes
      (String.mk (b64encodeBytes (asciiBytes (printKey k)))).data with
    | none => none
    | some bs => parseKey (bytesAscii bs)) = some k
  rw [show (String.mk (b64encodeBytes (asciiBytes (printKey k)))).data
    = b64encodeBytes (asciiBytes (printKey k)) from rfl]
  rw [hdec]
  show parseKey (bytesAscii (asciiBytes (printKey k))) = some k
  rw [bytesAscii_asciiBytes]
  exact parseKey_printKey k hc hl

/-- The full index key of a stored record on the
CityNorm-ModificationTimestamp index. -/
def keyOfRecord (r : StoredListing) : LastKey :=
  ⟨r.CityNorm.getD "", r.ModificationTimestamp.getD 0, r.ListingKey⟩

/-- The suffix of the index strictly after the record with the given
ListingKey (how DynamoDB resumes a Query from an ExclusiveStartKey; with
distinct keys the table key determines the position). -/
def afterKey (idx : List StoredListing) (k : String) : List StoredListing :=
  (idx.dropWhile (fun r => r.ListingKey != k)).drop 1

/-- One DynamoDB Query against the city index (server.js lines 919-937):
idx is the index partition for the city in index order (ModEpoch
descending), start the ExclusiveStartKey, lim the page Limit.  DynamoDB
evaluates up to lim items from the resume position, applies the
StandardStatus FilterExpression to the evaluated items afterwards, and
reports a LastEvaluatedKey whenever it stopped at the Limit. -/
def dynQueryCity (idx : List StoredListing) (start : Option String)
    (lim : Nat) (status : String) :
    List StoredListing × Option LastKey :=
  let rest := match start with
    | none => idx
    | some k => afterKey idx k
  let evaluated := rest.take lim
  let items := evaluated.filter (fun r => r.StandardStatus = some status)
  let lek := if evaluated.length = lim ∧ 0 < lim then
      evaluated.getLast?.map keyOfRecord
    else none
  (items, lek)

/-- The thin UI shape of one search result (server.js lines 948-965). -/
structure SearchHit where
  ListingKey : String
  City : Option String
  propertyType : Option String
  propertySubType : Option String
  PostalCode : Option String
  StateOrProvince : Option String
  StandardStatus : Option String
  ListPrice : Option Int
  BedroomsTotal : Option Int
  BathroomsTotalInteger : Option Int
  LivingArea : Option Int
  ModificationTimestamp : Option Nat
  PhotosChangeTimestamp : Option Nat
  address : Option String
  primaryPhotoUrl : Option String
deriving DecidableEq, Repr

/-- The mapping of a stored record to the UI shape, suppressing the
address when display is disallowed and preferring the CDN primary. -/
def mapSearchHit (v : StoredListing) : SearchHit where
  ListingKey := v.ListingKey
  City := v.City
  propertyType := v.PropertyType
  propertySubType := v.PropertySubType
  PostalCode := v.PostalCode
  StateOrProvince := v.StateOrProvince
  StandardStatus := v.StandardStatus
  ListPrice := v.ListPrice
  BedroomsTotal := v.BedroomsTotal
  BathroomsTotalInteger := v.BathroomsTotalInteger
  LivingArea := v.LivingArea
  ModificationTimestamp := v.ModificationTimestamp
  PhotosChangeTimestamp := v.PhotosChangeTimestamp
  address := if v.InternetAddressDisplayYN = some false then none
    else v.UnparsedAddress
  primaryPhotoUrl :=
    match v.CdnPrimary400 with
    | some p => some p
    | none => v.PrimaryPhotoUrl

/-- The while loop of GET /api/search/city (server.js lines 930-972):
query a page from the current lastKey, post-filter by propertyType in
JS, push mapped hits until the limit is reached, adopt the page
LastEvaluatedKey, and stop when the limit is reached or the key is
exhausted.  The loop always terminates on a finite index because every
continued iteration advances the resume position; the fuel argument
expresses that structurally. -/
def searchLoop (idx : List StoredListing) (status ptype : String)
    (lim : Nat) : Nat → Option LastKey → List SearchHit →
    List SearchHit × Option LastKey
  | 0, lastKey, acc => (acc, lastKey)
  | f + 1, lastKey, acc =>
    let q := dynQueryCity idx (lastKey.map (fun k => k.ListingKey)) lim status
    let filtered := if ptype = "" then q.1
      else q.1.filter (fun r => r.PropertyType.getD "" = ptype)
    let acc2 := acc ++ (filtered.take (lim - acc.length)).map mapSearchHit
    match q.2 with
    | none => (acc2, none)
    | some k2 =>
      if lim ≤ acc2.length then (acc2, some k2)
      else searchLoop idx status ptype lim f (some k2) acc2

/-- GET /api/search/city (server.js lines 903-992): decode the optional
cursor (a decode failure models the JSON.parse throw and fails the
call), run the query loop, and base64-encode the final LastEvaluatedKey
as the next cursor. -/
def searchCity (idx : List StoredListing) (status ptype : String)
    (lim : Nat) (cursor : Option String) :
    Option (List SearchHit × Option String) :=
  match cursor with
  | none =>
    let r := searchLoop idx status ptype lim (idx.length + 1) none []
    some (r.1, r.2.map encodeCursor)
  | some cs =>
    match decodeCursor cs with
    | none => none
    | some k =>
      let r := searchLoop idx status ptype lim (idx.length + 1) (some k) []
      some (r.1, r.2.map encodeCursor)

/-- The table keys of a list of index records. -/
def keysOfRecords (l : List StoredListing) : List String :=
  l.map (fun r => r.ListingKey)

/-- The table keys of a list of search hits. -/
def hitKeys (l : List SearchHit) : List String :=
  l.map (fun h => h.ListingKey)

/-- The portion of the index a loop iteration reads from: the whole
index on the first call, and the suffix after the cursor record on a
resumed call. -/
def restOf (idx : List StoredListing) (st : Option LastKey) :
    List StoredListing :=
  match st with
  | none => idx
  | some k => afterKey idx k.ListingKey

lemma afterKey_append (k : String) :
    ∀ (pre post : List StoredListing) (r : StoredListing),
      r.ListingKey = k → (∀ p ∈ pre, p.ListingKey ≠ k) →
      afterKey (pre ++ r :: post) k = post := by
  intro pre
  induction pre with
  | nil =>
    intro post r hr hp
    unfold afterKey
    simp [List.dropWhile_cons, hr]
  | cons p pre ih =>
    intro post r hr hp
    have hpk : p.ListingKey ≠ k := hp p (List.mem_cons_self p pre)
    unfold afterKey at ih ⊢
    simp only [List.cons_append, List.dropWhile_cons]
    rw [show (p.ListingKey != k) = true by simpa using hpk]
    simp only [if_true]
    exact ih post r hr (fun q hq => hp q (List.mem_cons_of_mem p hq))

lemma nodup_afterKey (idx : List StoredListing)
    (hnd : (keysOfRecords idx).Nodup) (pre post : List StoredListing)
    (r : StoredListing) (h : idx = pre ++ r :: post) :
    afterKey idx r.ListingKey = post := by
  subst h
  apply afterKey_append _ pre post r rfl
  intro p hp heq
  have hkeys : keysOfRecords (pre ++ r :: post)
      = keysOfRecords pre ++ r.ListingKey :: keysOfRecords post := by
    simp [keysOfRecords]
  rw [hkeys] at hnd
  have hdisj := (List.nodup_append.mp hnd).2.2
  have hmem : r.ListingKey ∈ keysOfRecords pre := by
    rw [← heq]
    exact List.mem_map_of_mem _ hp
  exact hdisj hmem (List.mem_cons_self _ _)

lemma nodup_middle_disjoint (idx pre mid post : List StoredListing)
    (h : idx = pre ++ mid ++ post) (hnd : (keysOfRecords idx).Nodup) :
    ∀ s ∈ keysOfRecords mid, s ∉ keysOfRecords post := by
  subst h
  have hkeys : keysOfRecords (pre ++ mid ++ post)
      = keysOfRecords pre
        ++ (keysOfRecords mid ++ keysOfRecords post) := by
    simp [keysOfRecords]
  rw [hkeys] at hnd
  have h2 := (List.nodup_append.mp hnd).2.1
  have h3 := (List.nodup_append.mp h2).2.2
  exact fun s hs hp => h3 hs hp

lemma take_last_decomp (rest : List StoredListing) (lim : Nat)
    (rlast : StoredListing)
    (hlast : (rest.take lim).getLast? = some rlast) :
    rest = (rest.take lim).dropLast ++ rlast :: rest.drop lim := by
  have h1 : rest.take lim ≠ [] := by
    intro h0
    rw [h0] at hlast
    simp at hlast
  have h2 : (rest.take lim).dropLast ++ [rlast] = rest.take lim := by
    have h3 := List.dropLast_append_getLast h1
    rw [List.getLast?_eq_getLast _ h1] at hlast
    injection hlast with hh
    rw [← hh]
    exact h3
  calc rest = rest.take lim ++ rest.drop lim :=
        (List.take_append_drop _ _).symm
    _ = ((rest.take lim).dropLast ++ [rlast]) ++ rest.drop lim := by
        rw [h2]
    _ = (rest.take lim).dropLast ++ rlast :: rest.drop lim := by
        simp

lemma searchLoop_inv (idx : List StoredListing) (status ptype : String)
    (lim : Nat) (hnd : (keysOfRecords idx).Nodup) :
    ∀ (f : Nat) (st : Option LastKey) (acc out : List SearchHit)
      (lk : Option LastKey) (pre : List StoredListing),
      idx = pre ++ restOf idx st →
      searchLoop idx status ptype lim f st acc = (out, lk) →
      ∃ new, out = acc ++ new ∧
        (∀ s ∈ hitKeys new, s ∈ keysOfRecords (restOf idx st)) ∧
        (∀ k2, lk = some k2 →
          (∃ pre2, restOf idx st = pre2 ++ restOf idx (some k2)) ∧
          (∀ s ∈ hitKeys new, s ∉ keysOfRecords (restOf idx (some k2))) ∧
          (st = some k2 ∨ ∃ r ∈ idx, k2 = keyOfRecord r)) := by
  intro f
  induction f with
  | zero =>
    intro st acc out lk pre hpre hrun
    simp only [searchLoop] at hrun
    injection hrun with h1 h2
    subst h1
    subst h2
    refine ⟨[], by simp, by simp [hitKeys], ?_⟩
    intro k2 hk2
    subst hk2
    exact ⟨⟨[], by simp⟩, by simp [hitKeys], Or.inl rfl⟩
  | succ f ih =>
    intro st acc out lk pre hpre hrun
    have hQ : dynQueryCity idx (Option.map (fun k => k.ListingKey) st)
        lim status
        = (((restOf idx st).take lim).filter
            (fun r => r.StandardStatus = some status),
           if ((restOf idx st).take lim).length = lim ∧ 0 < lim then
             ((restOf idx st).take lim).getLast?.map keyOfRecord
           else none) := by
      cases st with
      | none => rfl
      | some k0 => rfl
    simp only [searchLoop, hQ] at hrun
    set EV := (restOf idx st).take lim with hEV
    set ITEMS := EV.filter (fun r => r.StandardStatus = some status)
      with hITEMS
    set FILT := if ptype = "" then ITEMS
      else ITEMS.filter (fun r => r.PropertyType.getD "" = ptype) with hFILT
    set TAKEN := (FILT.take (lim - acc.length)).map mapSearchHit with hTAKEN
    have htakenKeys : ∀ s ∈ hitKeys TAKEN, s ∈ keysOfRecords EV := by
      intro s hs
      unfold hitKeys at hs
      rw [hTAKEN, List.mem_map] at hs
      obtain ⟨h0, hh0, hkey⟩ := hs
      rw [List.mem_map] at hh0
      obtain ⟨r, hr, hmap⟩ := hh0
      have hrkey : r.ListingKey = s := by
        rw [← hkey, ← hmap]
        rfl
      have hr1 := List.mem_of_mem_take hr
      have hr2 : r ∈ ITEMS := by
        rw [hFILT] at hr1
        by_cases hp : ptype = ""
        · rw [if_pos hp] at hr1
          exact hr1
        · rw [if_neg hp] at hr1
          exact List.mem_of_mem_filter hr1
      have hr3 := List.mem_of_mem_filter (hITEMS ▸ hr2)
      rw [← hrkey]
      exact List.mem_map_of_mem _ hr3
    have hEVkeys : ∀ s, s ∈ keysOfRecords EV →
        s ∈ keysOfRecords (restOf idx st) := by
      intro s hsk
      rw [← List.take_append_drop lim (restOf idx st)]
      unfold keysOfRecords
      rw [List.map_append]
      exact List.mem_append_left _ (hEV ▸ hsk)
    by_cases hcond : EV.length = lim ∧ 0 < lim
    · rw [if_pos hcond] at hrun
      have hne : EV ≠ [] := by
        intro h0
        rw [h0] at hcond
        simp at hcond
        omega
      have hlastsome : EV.getLast? = some (EV.getLast hne) :=
        List.getLast?_eq_getLast _ hne
      set rlast := EV.getLast hne with hrl
      rw [hlastsome] at hrun
      simp only [Option.map_some, Option.map_some'] at hrun
      have hdecomp : restOf idx st
          = EV.dropLast ++ rlast :: (restOf idx st).drop lim := by
        rw [hEV]
        exact take_last_decomp (restOf idx st) lim rlast (hEV ▸ hlastsome)
      have hidx2 : idx = (pre ++ EV.dropLast)
          ++ rlast :: (restOf idx st).drop lim := by
        conv_lhs => rw [hpre]
        conv_lhs => rw [hdecomp]
        simp [List.append_assoc]
      have hafter : afterKey idx rlast.ListingKey
          = (restOf idx st).drop lim :=
        nodup_afterKey idx hnd _ _ _ hidx2
      have hrestOf2 : restOf idx (some (keyOfRecord rlast))
          = (restOf idx st).drop lim := by
        show afterKey idx (keyOfRecord rlast).ListingKey = _
        exact hafter
      have hidx3 : idx = (pre ++ EV) ++ (restOf idx st).drop lim := by
        conv_lhs => rw [hpre]
        conv_lhs => rw [← List.take_append_drop lim (restOf idx st)]
        rw [← hEV]
        simp [List.append_assoc]
      have hdisj := nodup_middle_disjoint idx pre
        EV ((restOf idx st).drop lim) hidx3 hnd
      have hrlastmem : rlast ∈ idx := by
        rw [hpre]
        refine List.mem_append_right _ ?_
        exact List.mem_of_mem_take (List.getLast_mem hne)
      by_cases hstop : lim ≤ (acc ++ TAKEN).length
      · rw [if_pos hstop] at hrun
        injection hrun with h1 h2
        subst h1
        have hlk : lk = some (keyOfRecord rlast) := h2.symm
        refine ⟨TAKEN, rfl, ?_, ?_⟩
        · intro s hs
          exact hEVkeys s (htakenKeys s hs)
        · intro k2 hk2
          rw [hlk] at hk2
          injection hk2 with hk2
          subst hk2
          refine ⟨⟨EV, ?_⟩, ?_, Or.inr ⟨rlast, hrlastmem, rfl⟩⟩
          · rw [hrestOf2, hEV]
            exact (List.take_append_drop lim (restOf idx st)).symm
          · intro s hs
            rw [hrestOf2]
            exact hdisj s (htakenKeys s hs)
      · rw [if_neg hstop] at hrun
        have hpre2 : idx = (pre ++ EV)
            ++ restOf idx (some (keyOfRecord rlast)) := by
          rw [hrestOf2]
          exact hidx3
        obtain ⟨new2, hout, h2, h3⟩ := ih (some (keyOfRecord rlast)) _ out lk
          (pre ++ EV) hpre2 hrun
        refine ⟨TAKEN ++ new2, ?_, ?_, ?_⟩
        · rw [hout, List.append_assoc]
        · intro s hs
          unfold hitKeys at hs
          rw [List.map_append, List.mem_append] at hs
          rcases hs with hs | hs
          · exact hEVkeys s (htakenKeys s hs)
          · have hk := h2 s hs
            rw [hrestOf2] at hk
            rw [← List.take_append_drop lim (restOf idx st)]
            unfold keysOfRecords
            rw [List.map_append]
            exact List.mem_append_right _ hk
        · intro k2 hk2
          obtain ⟨⟨pre3, hpre3⟩, hnotin2, hor⟩ := h3 k2 hk2
          rw [hrestOf2] at hpre3
          refine ⟨⟨EV ++ pre3, ?_⟩, ?_, ?_⟩
          · conv_lhs => rw [← List.take_append_drop lim (restOf idx st)]
            rw [← hEV, hpre3, List.append_assoc]
          · intro s hs
            unfold hitKeys at hs
            rw [List.map_append, List.mem_append] at hs
            rcases hs with hs | hs
            · intro hmem
              have hsub : s ∈ keysOfRecords ((restOf idx st).drop lim) := by
                rw [hpre3]
                unfold keysOfRecords
                rw [List.map_append]
                exact List.mem_append_right _ hmem
              exact hdisj s (htakenKeys s hs) hsub
            · exact hnotin2 s hs
          · rcases hor with hor | hor
            · injection hor with hor
              exact Or.inr ⟨rlast, hrlastmem, hor.symm⟩
            · exact Or.inr hor
    · rw [if_neg hcond] at hrun
      injection hrun with h1 h2
      subst h1
      refine ⟨TAKEN, rfl, ?_, ?_⟩
      · intro s hs
        exact hEVkeys s (htakenKeys s hs)
      · intro k2 hk2
        rw [← h2] at hk2
        cases hk2

/-- A concrete index record for city x with the given key number,
sort-key epoch and status. -/
def c10rec (i : Nat) (ts : Nat) (status : String) : StoredListing :=
  { emptyStored ("k" ++ toString i) with
      CityNorm := some "x"
      ModificationTimestamp := some ts
      ModEpoch := some ts
      StandardStatus := some status }

/-- A five-record index partition for city x in index order (sort key
descending); k2 is Pending, the others Active. -/
def c10idx : List StoredListing :=
  [c10rec 1 50 "Active", c10rec 2 40 "Pending", c10rec 3 30 "Active",
   c10rec 4 20 "Active", c10rec 5 10 "Active"]

/-- C10 counterexample: with limit 2 and no propertyType filter, the
first call returns k1 and k3 and a cursor; the call resumed with that
exact cursor returns only k5.  The matching record k4 (Active, city x,
present in the index) is returned by neither call: the cursor points at
the last index-evaluated record (k4), which lies beyond the last
returned record (k3), so resuming skips k4 -- a gap, contradicting the
claim that concatenating the pages yields every matching record. -/
theorem c10_cursor_counterexample :
    ((searchCity c10idx "Active" "" 2 none).map
        (fun rc => (rc.1.map (fun h => h.ListingKey), rc.2.isSome))
      = some (["k1", "k3"], true)) ∧
    ((searchCity c10idx "Active" "" 2
        ((searchCity c10idx "Active" "" 2 none).bind (fun rc => rc.2))).map
        (fun rc => (rc.1.map (fun h => h.ListingKey), rc.2))
      = some (["k5"], none)) ∧
    c10rec 4 20 "Active" ∈ c10idx ∧
    (c10rec 4 20 "Active").StandardStatus = some "Active" ∧
    (c10rec 4 20 "Active").CityNorm = some "x" ∧
    (c10rec 4 20 "Active").ListingKey ∉ (["k1", "k3", "k5"] : List String)
    := by decide

/-- C10 amended: the cursor round-trips through its base64 and JSON
encoding exactly as issued (for keys whose string fields are ASCII and
quote-free, as city norms and listing keys are), and a resumed call
never repeats a record: every key returned by the resumed call lies
strictly after the cursor position, and the first call returned no key
from that suffix.  However the cursor marks the last index-EVALUATED
record, which can lie beyond the last RETURNED record, so matching
records between the two can be skipped (see the counterexample): the
pages are duplicate-free but not gap-free. -/
theorem c10_cursor_amended :
    (∀ k : LastKey, dquote ∉ k.CityNorm.data → dquote ∉ k.ListingKey.data →
      asciiOk k.CityNorm → asciiOk k.ListingKey →
      decodeCursor (encodeCursor k) = some k) ∧
    (∀ (idx : List StoredListing) (status ptype : String) (lim : Nat)
       (out1 out2 : List SearchHit) (cs : String) (lk2 : Option String),
      (keysOfRecords idx).Nodup →
      (∀ r ∈ idx, dquote ∉ (keyOfRecord r).CityNorm.data ∧
        dquote ∉ (keyOfRecord r).ListingKey.data ∧
        asciiOk (keyOfRecord r).CityNorm ∧
        asciiOk (keyOfRecord r).ListingKey) →
      searchCity idx status ptype lim none = some (out1, some cs) →
      searchCity idx status ptype lim (some cs) = some (out2, lk2) →
      ∀ s ∈ hitKeys out2, s ∉ hitKeys out1) := by
  constructor
  · intro k h1 h2 h3 h4
    exact decodeCursor_encodeCursor k h1 h2 h3 h4
  · intro idx status ptype lim out1 out2 cs lk2 hnd hben h1 h2
    rcases hr1 : searchLoop idx status ptype lim (idx.length + 1) none []
      with ⟨o1, l1⟩
    unfold searchCity at h1
    rw [hr1] at h1
    simp only [Option.some.injEq, Prod.mk.injEq] at h1
    obtain ⟨ho1, hl1⟩ := h1
    cases l1 with
    | none => simp at hl1
    | some k1 =>
      simp only [Option.map_some, Option.map_some', Option.some.injEq]
        at hl1
      obtain ⟨new1, hnew1, hkeys1, hclause1⟩ := searchLoop_inv idx status
        ptype lim hnd (idx.length + 1) none [] o1 (some k1) []
        (by simp [restOf]) hr1
      obtain ⟨⟨pre2, hsplit⟩, hnotin1, hor⟩ := hclause1 k1 rfl
      rcases hor with hcontra | ⟨r, hrmem, hkr⟩
      · exact Option.noConfusion hcontra
      · subst hkr
        have hb := hben r hrmem
        have hdec : decodeCursor cs = some (keyOfRecord r) := by
          rw [← hl1]
          exact decodeCursor_encodeCursor (keyOfRecord r)
            hb.1 hb.2.1 hb.2.2.1 hb.2.2.2
        simp only [searchCity, hdec] at h2
        rcases hr2 : searchLoop idx status ptype lim (idx.length + 1)
          (some (keyOfRecord r)) [] with ⟨o2, l2⟩
        rw [hr2] at h2
        simp only [Option.some.injEq, Prod.mk.injEq] at h2
        obtain ⟨ho2, _⟩ := h2
        obtain ⟨new2, hnew2, hkeys2, _⟩ := searchLoop_inv idx status ptype
          lim hnd (idx.length + 1) (some (keyOfRecord r)) [] o2 l2 pre2
          (by
            show idx = pre2 ++ restOf idx (some (keyOfRecord r))
            exact hsplit) hr2
        intro s hs2 hs1
        rw [← ho2, hnew2, List.nil_append] at hs2
        rw [← ho1, hnew1, List.nil_append] at hs1
        exact hnotin1 s hs1 (hkeys2 s hs2)

/-- Closed witness for C10: the concrete cursor of the counterexample
round-trips exactly. -/
theorem c10_cursor_amended_witness :
    decodeCursor (encodeCursor ⟨"x", 20, "k4"⟩) = some ⟨"x", 20, "k4"⟩ := by
  exact c10_cursor_amended.1 ⟨"x", 20, "k4"⟩ (by decide) (by decide)
    (by unfold asciiOk; decide) (by unfold asciiOk; decide)

end RetsSpec
